import Mathlib

/-!
Verification of the ParishStaq geocoding cache-and-normalization subsystem
(`app/geocoding_service.py` together with `app/geocoding_database.py`).

The development shallowly embeds the Python source:

* Strings are modeled as `List Char` (the service only ever handles ASCII
  address text; `str.upper`, `str.strip`, `str.split`, and the regular
  expressions `\s`, `\w`, `\b` are embedded in their ASCII meaning).
* Latitude/longitude values are never computed with, only stored and
  compared, so they are modeled by `Int` (an opaque stand-in for the
  Python floats).
* `datetime.utcnow()` values are opaque; they are modeled by `Nat`
  parameters supplied to each call.
* The SQLAlchemy session is modeled by an explicit store state
  (`List Entry`); `commit` either applies the pending mutation or raises,
  and a raise that reaches the service's top-level handler rolls the
  state back to the last committed one.
-/

namespace Geo

set_option maxRecDepth 100000

/-! ## List helper lemmas -/

theorem dropWhile_length_le (p : Char → Bool) (s : List Char) :
    (s.dropWhile p).length ≤ s.length := by
  induction s with
  | nil => simp
  | cons a t ih =>
    simp only [List.dropWhile_cons]
    split
    · exact Nat.le_succ_of_le ih
    · simp

theorem dropWhile_head_false (p : Char → Bool) (s : List Char) (h : s.dropWhile p ≠ []) :
    p ((s.dropWhile p).head h) = false := by
  induction s with
  | nil => simp at h
  | cons a t ih =>
    simp only [List.dropWhile_cons] at h ⊢
    by_cases hp : p a
    · simp only [hp, if_true] at h ⊢
      exact ih h
    · simp [hp]

/-! ## Character classes (ASCII fragments of the Python notions)

`isPyWS` is Python's `str.strip()` / `str.split()` / regex `\s` whitespace
class; `isWordC` is regex `\w` = `[A-Za-z0-9_]`; `isTokC` is the class
`[\w\-]` used in the unit-stripping pattern.
-/

def isPyWS (c : Char) : Bool :=
  c = ' ' || c = '\t' || c = '\n' || c = '\x0d' || c = '\x0b' || c = '\x0c'

def isWordC (c : Char) : Bool :=
  c.isAlphanum || c = '_'

def isTokC (c : Char) : Bool :=
  isWordC c || c = '-'

/-- ASCII fragment of Python `str.upper` applied to one character. -/
def pyUpperC (c : Char) : Char :=
  if 97 ≤ c.toNat ∧ c.toNat ≤ 122 then Char.ofNat (c.toNat - 32) else c

/-- ASCII fragment of Python `str.upper`. -/
def pyUpper (s : List Char) : List Char := s.map pyUpperC

/-- Python `str.strip()`: drop leading and trailing whitespace. -/
def pyStrip (s : List Char) : List Char :=
  ((s.dropWhile isPyWS).reverse.dropWhile isPyWS).reverse

/-- Fuel-driven implementation of Python `str.split()`; the recursion
consumes at least one character per step, so `s.length` fuel always
suffices (`pySplit_eq` below recovers the natural recursion equation). -/
def pySplitF : Nat → List Char → List (List Char)
  | 0, _ => []
  | n + 1, s =>
    if s.dropWhile isPyWS = [] then []
    else
      (s.dropWhile isPyWS).takeWhile (fun c => !isPyWS c) ::
        pySplitF n ((s.dropWhile isPyWS).dropWhile (fun c => !isPyWS c))

/-- Python `str.split()` (no separator): the maximal whitespace-free
runs of the string, in order, empties dropped. -/
def pySplit (s : List Char) : List (List Char) := pySplitF (s.length + 1) s

theorem pySplit_drop_lt (s : List Char) (h : s.dropWhile isPyWS ≠ []) :
    ((s.dropWhile isPyWS).dropWhile (fun c => !isPyWS c)).length < s.length := by
  have h1 : (s.dropWhile isPyWS).length ≤ s.length := dropWhile_length_le ..
  have h2 : ((s.dropWhile isPyWS).dropWhile (fun c => !isPyWS c)).length <
      (s.dropWhile isPyWS).length := by
    cases hs : s.dropWhile isPyWS with
    | nil => exact absurd hs h
    | cons a t =>
      have ha : isPyWS a = false := by
        have := dropWhile_head_false isPyWS s (by simp [hs])
        simpa [hs] using this
      simp only [List.dropWhile_cons, ha, Bool.not_false, if_true, List.length_cons]
      exact Nat.lt_succ_of_le (dropWhile_length_le ..)
  exact Nat.lt_of_lt_of_le h2 h1

theorem pySplitF_fuel : ∀ n m : Nat, ∀ s : List Char, s.length < n → s.length < m →
    pySplitF n s = pySplitF m s := by
  intro n
  induction n with
  | zero => intro m s hn; omega
  | succ n ih =>
    intro m s hn hm
    cases m with
    | zero => omega
    | succ m =>
      simp only [pySplitF]
      by_cases h : s.dropWhile isPyWS = []
      · simp [h]
      · simp only [h, if_false]
        have hlt := pySplit_drop_lt s h
        have := ih m ((s.dropWhile isPyWS).dropWhile (fun c => !isPyWS c)) (by omega) (by omega)
        rw [this]

/-- The natural recursion equation for `pySplit`. -/
theorem pySplit_eq (s : List Char) :
    pySplit s = if s.dropWhile isPyWS = [] then []
      else (s.dropWhile isPyWS).takeWhile (fun c => !isPyWS c) ::
        pySplit ((s.dropWhile isPyWS).dropWhile (fun c => !isPyWS c)) := by
  show pySplitF (s.length + 1) s = _
  rw [pySplitF]
  by_cases h : s.dropWhile isPyWS = []
  · simp [h]
  · simp only [h, if_false, List.cons.injEq, true_and]
    exact pySplitF_fuel _ _ _ (pySplit_drop_lt s h) (Nat.lt_succ_self _)

/-- `' '.join(tokens)`: single spaces between tokens. -/
def joinSp : List (List Char) → List Char
  | [] => []
  | t :: ts =>
    match ts with
    | [] => t
    | _ :: _ => t ++ ' ' :: joinSp ts

/-- `' '.join(s.split())`: the whitespace-collapsing step
(`street = ' '.join(street.split())`, line 122 of the source). -/
def collapseWS (s : List Char) : List Char :=
  joinSp (pySplit s)

/-! ## The unit/apartment designator stripping step

Source line 95:
`re.sub(r'\s*(APT|UNIT|#|STE|SUITE|BLDG|BUILDING)\s*[\w\-]+\s*$', '', street)`.

Every match of this pattern ends at the end of the string, so `re.sub`
removes at most one (the leftmost) match, and the result is the prefix of
the string before the leftmost position whose suffix matches.  A suffix
matches the pattern exactly when, after its maximal leading whitespace
run (the designator keywords start with non-whitespace, so the greedy
`\s*` cannot stop early), one of the keywords is a prefix (the keyword
set is prefix-free, so at most one can be), and the remainder after the
keyword consists of optional whitespace, a nonempty run of `[\w\-]`
characters, and optional trailing whitespace.
-/

def unitKeywords : List (List Char) :=
  [['A','P','T'], ['U','N','I','T'], ['#'], ['S','T','E'],
   ['S','U','I','T','E'], ['B','L','D','G'],
   ['B','U','I','L','D','I','N','G']]

def isPrefList : List Char → List Char → Bool
  | [], _ => true
  | _ :: _, [] => false
  | a :: p, b :: s => a = b && isPrefList p s

/-- Does the whole suffix `u` match
`\s*(APT|UNIT|#|STE|SUITE|BLDG|BUILDING)\s*[\w\-]+\s*$` ? -/
def unitMatchAt (u : List Char) : Bool :=
  unitKeywords.any fun kw =>
    isPrefList kw (u.dropWhile isPyWS) &&
      !((((u.dropWhile isPyWS).drop kw.length).dropWhile isPyWS).takeWhile isTokC).isEmpty &&
      ((((u.dropWhile isPyWS).drop kw.length).dropWhile isPyWS).dropWhile isTokC).all isPyWS

/-- The unit-stripping `re.sub`: cut the string at the leftmost position
whose suffix matches the anchored pattern, if any. -/
def unitSub (s : List Char) : List Char :=
  match (List.range (s.length + 1)).find? (fun i => unitMatchAt (s.drop i)) with
  | some i => s.take i
  | none => s

/-! ## Whole-word abbreviation substitution

Source lines 98–119: seventeen `re.sub(r'\bWORD\b', abbrev, street)`
calls, in dictionary order.  Each pattern is a fixed word of `\w`
characters between two `\b` boundaries; `re.sub` scans left to right and
replaces every non-overlapping occurrence.  The scanner below walks the
string carrying the boundary state (`bd` is true when the previous
character, if any, is not a `\w` character); a replacement happens
exactly when the pattern is a prefix of the remaining input, the scanner
is at a boundary, and the character after the matched text (if any) is
not a `\w` character — precisely the semantics of `\bWORD\b`.
-/

/-- `\b` holds after the matched text iff the input there is empty or
starts with a non-word character. -/
def bdAfter : List Char → Bool
  | [] => true
  | c :: _ => !isWordC c

def wwMatch (p s : List Char) : Bool :=
  isPrefList p s && bdAfter (s.drop p.length)

theorem isPrefList_length_le : ∀ p s : List Char, isPrefList p s = true → p.length ≤ s.length
  | [], _, _ => Nat.zero_le _
  | _ :: _, [], h => by simp [isPrefList] at h
  | a :: p, b :: s, h => by
    simp only [isPrefList, Bool.and_eq_true] at h
    exact Nat.succ_le_succ (isPrefList_length_le p s h.2)

/-- Fuel-driven scanner for one `re.sub(r'\bP\b', r, ·)` call.  `bd` is
the word-boundary state before the current position (true at the start of
the string).  Each step consumes at least one input character when the
pattern is nonempty, so `s.length` fuel always suffices; `subWWr_eq`
below recovers the natural recursion equation. -/
def subWWgoF (p r : List Char) : Nat → Bool → List Char → List Char
  | 0, _, s => s
  | n + 1, bd, s =>
    if bd && wwMatch p s then
      r ++ subWWgoF p r n false (s.drop p.length)
    else
      match s with
      | [] => []
      | c :: t => c :: subWWgoF p r n (!isWordC c) t

/-- The scanner with enough fuel for its input. -/
def subWWr (p r : List Char) (bd : Bool) (s : List Char) : List Char :=
  subWWgoF p r (s.length + 1) bd s

/-- `re.sub(r'\bP\b', r, s)` for a literal all-word pattern `p` (all
seventeen table patterns are nonempty; the guard only fixes the
degenerate empty-pattern case). -/
def subWW (p r s : List Char) : List Char :=
  if p = [] then s else subWWr p r true s

theorem subWWgoF_succ (p r : List Char) (n : Nat) (bd : Bool) (s : List Char) :
    subWWgoF p r (n + 1) bd s = if bd && wwMatch p s then
        r ++ subWWgoF p r n false (s.drop p.length)
      else
        match s with
        | [] => []
        | c :: t => c :: subWWgoF p r n (!isWordC c) t := rfl

theorem subWWgoF_fuel (p r : List Char) (hp : p ≠ []) : ∀ n m : Nat, ∀ bd : Bool,
    ∀ s : List Char, s.length < n → s.length < m →
    subWWgoF p r n bd s = subWWgoF p r m bd s := by
  intro n
  induction n with
  | zero => intro m bd s hn; omega
  | succ n ih =>
    intro m bd s hn hm
    cases m with
    | zero => omega
    | succ m =>
      rw [subWWgoF_succ, subWWgoF_succ]
      cases hbw : (bd && wwMatch p s) with
      | true =>
        rw [if_pos rfl, if_pos rfl]
        have hpl : p.length ≤ s.length := by
          simp only [Bool.and_eq_true, wwMatch] at hbw
          exact isPrefList_length_le p s hbw.2.1
        have hpos : 0 < p.length := by
          cases p with
          | nil => exact absurd rfl hp
          | cons a q => exact Nat.succ_pos _
        rw [ih m false (s.drop p.length)
          (by simp only [List.length_drop]; omega)
          (by simp only [List.length_drop]; omega)]
      | false =>
        rw [if_neg (by simp), if_neg (by simp)]
        cases s with
        | nil => rfl
        | cons c t =>
          simp only [List.length_cons] at hn hm
          show c :: subWWgoF p r n (!isWordC c) t = c :: subWWgoF p r m (!isWordC c) t
          rw [ih m (!isWordC c) t (by omega) (by omega)]

/-- The natural recursion equation for the scanner. -/
theorem subWWr_eq (p r : List Char) (hp : p ≠ []) (bd : Bool) (s : List Char) :
    subWWr p r bd s = if bd && wwMatch p s then
        r ++ subWWr p r false (s.drop p.length)
      else
        match s with
        | [] => []
        | c :: t => c :: subWWr p r (!isWordC c) t := by
  show subWWgoF p r (s.length + 1) bd s = _
  rw [subWWgoF_succ]
  cases hbw : (bd && wwMatch p s) with
  | true =>
    rw [if_pos rfl, if_pos rfl]
    have hpl : p.length ≤ s.length := by
      simp only [Bool.and_eq_true, wwMatch] at hbw
      exact isPrefList_length_le p s hbw.2.1
    have hpos : 0 < p.length := by
      cases p with
      | nil => exact absurd rfl hp
      | cons a q => exact Nat.succ_pos _
    have h1 : (s.drop p.length).length < s.length := by
      simp only [List.length_drop]; omega
    exact congrArg (fun x => r ++ x)
      (subWWgoF_fuel p r hp s.length ((s.drop p.length).length + 1) false
        (s.drop p.length) h1 (Nat.lt_succ_self _))
  | false =>
    rw [if_neg (by simp), if_neg (by simp)]
    cases s with
    | nil => rfl
    | cons c t => rfl

/-- All seventeen abbreviation substitutions of the source, in order. -/
def abbrevTable : List (List Char × List Char) :=
  [(['S','T','R','E','E','T'], ['S','T']),
   (['A','V','E','N','U','E'], ['A','V','E']),
   (['B','O','U','L','E','V','A','R','D'], ['B','L','V','D']),
   (['D','R','I','V','E'], ['D','R']),
   (['L','A','N','E'], ['L','N']),
   (['C','O','U','R','T'], ['C','T']),
   (['P','L','A','C','E'], ['P','L']),
   (['R','O','A','D'], ['R','D']),
   (['C','I','R','C','L','E'], ['C','I','R']),
   (['N','O','R','T','H'], ['N']),
   (['S','O','U','T','H'], ['S']),
   (['E','A','S','T'], ['E']),
   (['W','E','S','T'], ['W']),
   (['N','O','R','T','H','E','A','S','T'], ['N','E']),
   (['N','O','R','T','H','W','E','S','T'], ['N','W']),
   (['S','O','U','T','H','E','A','S','T'], ['S','E']),
   (['S','O','U','T','H','W','E','S','T'], ['S','W'])]

def applyAbbrevs (s : List Char) : List Char :=
  abbrevTable.foldl (fun acc pr => subWW pr.1 pr.2 acc) s

/-! ## The normalizer `GeocodingService._normalize_address_key` -/

/-- Street component processing, source lines 89, 95, 118–119, 122. -/
def normStreet (s : List Char) : List Char :=
  collapseWS (applyAbbrevs (unitSub (pyStrip (pyUpper s))))

/-- City component processing, source lines 90, 123. -/
def normCity (c : List Char) : List Char :=
  collapseWS (pyStrip (pyUpper c))

/-- State component processing, source line 91. -/
def normState (t : List Char) : List Char :=
  pyStrip (pyUpper t)

/-- Zip component processing, source lines 92, 126–127
(`zip_code = zip_code[:5]` only when `zip_code` is nonempty, which
coincides with unconditional `take 5`). -/
def normZip (z : List Char) : List Char :=
  if (pyStrip z).isEmpty then pyStrip z else (pyStrip z).take 5

/-- `GeocodingService._normalize_address_key`, source lines 72–129, on
character lists. -/
def normalizeKeyL (street city state zip : List Char) : List Char :=
  normStreet street ++ '|' :: (normCity city ++ '|' :: (normState state ++ '|' :: normZip zip))

/-- `GeocodingService._normalize_address_key` on strings. -/
def normalize_address_key (street city state zip : String) : String :=
  (normalizeKeyL street.toList city.toList state.toList zip.toList).asString


/-! ## The geocode cache data model (`app/geocoding_database.py`)

One `Entry` models one `GeocodeCache` row.  `Option` marks nullable
columns; `retry_count` and `usage_count` are integer columns with
creation defaults 0 and 1 respectively (`geocoding_database.py` lines
78 and 82), and the service reads them through `(x or 0)` so they are
modeled as `Nat`.  Timestamps are opaque (`Time := Nat`), coordinates
are opaque numbers (`Int` stands in for the floats, which the service
never computes with).  The surrogate autoincrement `id` is not modeled
(no claim mentions it).
-/

abbrev Time := Nat

structure Entry where
  address_key : String
  street : String
  city : String
  state : String
  zip_code : String
  latitude : Option Int
  longitude : Option Int
  formatted_address : Option String
  place_id : Option String
  accuracy : Option String
  location_type : Option String
  confidence : Option String
  geocode_provider : String
  geocoded_at : Option Time
  api_response_json : Option String
  error_message : Option String
  retry_count : Nat
  last_error_at : Option Time
  usage_count : Nat
  last_used_at : Option Time
  created_at : Time
  updated_at : Option Time
deriving DecidableEq, Repr

/-- `GeocodeCache.is_valid` (`geocoding_database.py` lines 105–108). -/
def Entry.is_valid (e : Entry) : Bool :=
  e.latitude.isSome && e.longitude.isSome

/-- The committed state of the `geocode_cache` table.  `find?` on the
key models `session.query(GeocodeCache).filter_by(address_key=...)
.first()`; the service itself maintains key uniqueness. -/
abbrev Store := List Entry

def storeFind (st : Store) (k : String) : Option Entry :=
  List.find? (fun e => e.address_key = k) st

/-- In-place mutation of the row `first()` returned: replace the first
entry with the given key. -/
def replaceFirst (st : Store) (k : String) (e : Entry) : Store :=
  match st with
  | [] => []
  | x :: xs => if x.address_key = k then e :: xs else x :: replaceFirst xs k e

/-! ## Provider and failure-injection model

The provider (`self.gmaps.geocode(...)`, line 209) either returns a list
of candidate results, raises one of the handled exception types
(`ApiError`/`Timeout`/`TransportError`, caught at line 214), raises some
other exception, or returns a payload whose first candidate lacks the
required `geometry.location` keys (a `KeyError` inside the outer `try`).
Each candidate carries the fields the service reads; `location_type` is
read with `.get('location_type', 'UNKNOWN')` so it is optional, and the
full payload (`json.dumps(result)`) is an opaque string. -/

structure Candidate where
  lat : Int
  lng : Int
  location_type : Option String
  formatted_address : Option String
  place_id : Option String
  raw : String
deriving DecidableEq, Repr

inductive ProviderOutcome where
  /-- `ApiError` / `Timeout` / `TransportError`, caught at line 214. -/
  | apiError (msg : String)
  /-- A well-formed candidate list (possibly empty). -/
  | ok (results : List Candidate)
  /-- First candidate lacks `geometry`/`location`: a `KeyError` inside
  the outer `try`. -/
  | malformed
  /-- Any other exception raised by the client library. -/
  | otherError
deriving DecidableEq, Repr

/-- Store/session failure injection points: each names a query or commit
that raises when reached. -/
inductive FailPoint where
  | lookupQuery
  | hitCommit
  | upsertQuery
  | mainCommit
  | errQuery
  | errCommit
deriving DecidableEq, Repr

structure Env where
  provider : ProviderOutcome
  fail : Option FailPoint
deriving DecidableEq, Repr

/-- The dictionary `geocode_address` returns (`cache_id` omitted along
with the surrogate `id`). -/
structure GeocodeResult where
  lat : Int
  lng : Int
  accuracy : Option String
  confidence : Option String
  formatted_address : Option String
  place_id : Option String
  cached : Bool
deriving DecidableEq, Repr

/-- `GeocodingService.CONFIDENCE_MAP.get(location_type, 'low')`
(lines 46–51 and 230). -/
def CONFIDENCE_MAP (location_type : String) : String :=
  if location_type = "ROOFTOP" then "high"
  else if location_type = "RANGE_INTERPOLATED" then "medium"
  else if location_type = "GEOMETRIC_CENTER" then "medium"
  else if location_type = "APPROXIMATE" then "low"
  else "low"

/-- `GeocodingService._record_error` (lines 296–331).  Its body is
wrapped in `try/except: session.rollback()`, so any injected failure
leaves the committed store unchanged.  On creation the unsupplied
columns take their defaults (`retry_count` is passed explicitly as 1,
`usage_count` defaults to 1, `geocode_provider` defaults to
`'google_maps'`, `created_at` defaults to now). -/
def record_error (env : Env) (st : Store) (key street city state zip msg : String)
    (now : Time) : Store :=
  if env.fail = some FailPoint.errQuery ∨ env.fail = some FailPoint.errCommit then st
  else
    match storeFind st key with
    | some e =>
        replaceFirst st key
          { e with
            error_message := some msg
            retry_count := e.retry_count + 1
            last_error_at := some now }
    | none =>
        st ++ [{
          address_key := key
          street := street
          city := city
          state := state
          zip_code := zip
          latitude := none
          longitude := none
          formatted_address := none
          place_id := none
          accuracy := none
          location_type := none
          confidence := none
          geocode_provider := "google_maps"
          geocoded_at := none
          api_response_json := none
          error_message := some msg
          retry_count := 1
          last_error_at := some now
          usage_count := 1
          last_used_at := none
          created_at := now
          updated_at := none }]

/-- Output of the `try`-block body: the returned dictionary (or `None`),
the committed store, and whether the provider was called. -/
structure StepOut where
  result : Option GeocodeResult
  store : Store
  providerCalled : Bool
deriving DecidableEq, Repr

/-- The cache-miss / force-refresh tail of `geocode_address`
(lines 199–286): rate limit (modeled separately, see `rateLimitStep`),
provider call, error recording or upsert, commit, and result. -/
def geocodeMiss (env : Env) (st : Store) (key street city state zip : String)
    (now : Time) : Except Unit StepOut :=
  match env.provider with
  | ProviderOutcome.apiError msg =>
      Except.ok ⟨none, record_error env st key street city state zip msg now, true⟩
  | ProviderOutcome.ok [] =>
      Except.ok ⟨none, record_error env st key street city state zip "No results" now, true⟩
  | ProviderOutcome.ok (c :: _) =>
      let location_type := c.location_type.getD "UNKNOWN"
      let confidence := CONFIDENCE_MAP location_type
      if env.fail = some FailPoint.upsertQuery then Except.error ()
      else
        let st1 : Store :=
          match storeFind st key with
          | some e =>
              replaceFirst st key
                { e with
                  latitude := some c.lat
                  longitude := some c.lng
                  formatted_address := c.formatted_address
                  place_id := c.place_id
                  accuracy := some location_type
                  location_type := some location_type
                  confidence := some confidence
                  geocoded_at := some now
                  api_response_json := some c.raw
                  error_message := none
                  usage_count := e.usage_count + 1
                  last_used_at := some now
                  updated_at := some now }
          | none =>
              st ++ [{
                address_key := key
                street := street
                city := city
                state := state
                zip_code := zip
                latitude := some c.lat
                longitude := some c.lng
                formatted_address := c.formatted_address
                place_id := c.place_id
                accuracy := some location_type
                location_type := some location_type
                confidence := some confidence
                geocode_provider := "google_maps"
                geocoded_at := some now
                api_response_json := some c.raw
                error_message := none
                retry_count := 0
                last_error_at := none
                usage_count := 1
                last_used_at := some now
                created_at := now
                updated_at := none }]
        if env.fail = some FailPoint.mainCommit then Except.error ()
        else
          Except.ok ⟨some {
            lat := c.lat
            lng := c.lng
            accuracy := some location_type
            confidence := some confidence
            formatted_address := c.formatted_address
            place_id := c.place_id
            cached := false }, st1, true⟩
  | ProviderOutcome.malformed => Except.error ()
  | ProviderOutcome.otherError => Except.error ()

/-- The body of the `try` block of `geocode_address` (lines 170–286).
`Except.error ()` marks an exception escaping the body. -/
def geocodeCore (env : Env) (st : Store) (street city state zip : String)
    (force : Bool) (now : Time) : Except Unit StepOut :=
  let key := normalize_address_key street city state zip
  if force = false then
    if env.fail = some FailPoint.lookupQuery then Except.error ()
    else
      match storeFind st key with
      | some e =>
          match e.latitude, e.longitude with
          | some la, some lo =>
              -- cache hit (lines 180–197)
              if env.fail = some FailPoint.hitCommit then Except.error ()
              else
                Except.ok ⟨some {
                  lat := la
                  lng := lo
                  accuracy := e.accuracy
                  confidence := e.confidence
                  formatted_address := e.formatted_address
                  place_id := e.place_id
                  cached := true },
                  replaceFirst st key
                    { e with
                      usage_count := e.usage_count + 1
                      last_used_at := some now },
                  false⟩
          | _, _ => geocodeMiss env st key street city state zip now
      | none => geocodeMiss env st key street city state zip now
  else geocodeMiss env st key street city state zip now

/-- `GeocodingService.geocode_address` (lines 138–294): the `try` body
with the top-level `except Exception: session.rollback(); return None`
handler.  Any exception rolls the store back to its committed state and
yields `None`. -/
def geocode_address (env : Env) (st : Store) (street city state zip : String)
    (force : Bool) (now : Time) : Option GeocodeResult × Store :=
  match geocodeCore env st street city state zip force now with
  | Except.ok out => (out.result, out.store)
  | Except.error _ => (none, st)

/-! ## `GeocodingService.get_cache_stats` (lines 370–410)

A pure aggregation over the committed store.  The SQL aggregates map to
list operations: `count()` is `length`, `filter(...isnot(None))` is a
`filter` on `isSome`, `func.sum(usage_count)` is a `sum` (the `or 0`
is absorbed by `Nat`), and the `group_by(accuracy)` dictionary is the
counting function.  The float arithmetic `* 0.005` is modeled exactly
over `ℚ` (`5 / 1000`). -/

structure Stats where
  total_cached : Nat
  valid : Nat
  failed : Nat
  total_lookups : Nat
  api_calls_saved : Int
  accuracy_breakdown : String → Nat
  estimated_cost : ℚ
  estimated_savings : ℚ

def get_cache_stats (st : Store) : Stats :=
  { total_cached := st.length
    valid := (st.filter (fun e => e.latitude.isSome)).length
    failed := (st.filter (fun e => e.error_message.isSome)).length
    total_lookups := (st.map (fun e => e.usage_count)).sum
    api_calls_saved := ((st.map (fun e => e.usage_count)).sum : Int) - (st.length : Int)
    accuracy_breakdown := fun a => (st.filter (fun e => e.accuracy = some a)).length
    estimated_cost := (st.length : ℚ) * (5 / 1000)
    estimated_savings :=
      ((((st.map (fun e => e.usage_count)).sum : Int) - (st.length : Int) : Int) : ℚ) * (5 / 1000) }

/-! ## The rate limiter `GeocodingService._rate_limit` (lines 42–43, 131–136)

Abstract real-time model over exact rationals: `RATE_LIMIT_DELAY = 0.05`
seconds.  A call to `_rate_limit` reads the clock (`t1`), sleeps
`RATE_LIMIT_DELAY - (t1 - last)` if the elapsed time since the stored
`_last_request_time` is smaller than the delay, then stores a fresh clock
reading as the new `_last_request_time`.  `time.sleep` suspends for at
least the requested duration and the second clock reading happens after
the sleep, so the new timestamp is the computed wake-up time plus a
nonnegative scheduling slack `d`.  The value returned is the new
`_last_request_time`, which is the start time of the provider call that
follows. -/

def RATE_LIMIT_DELAY : ℚ := 5 / 100

def rateLimitStep (last t1 d : ℚ) : ℚ :=
  (if t1 - last < RATE_LIMIT_DELAY then t1 + (RATE_LIMIT_DELAY - (t1 - last)) else t1) + d

/-- Timestamps of successive rate-limited provider-call starts: one
`(t1, d)` pair (clock reading on entry, nonnegative scheduling slack)
per `_rate_limit` call. -/
def rateLimitTimes (last0 : ℚ) : List (ℚ × ℚ) → List ℚ
  | [] => []
  | p :: ps => rateLimitStep last0 p.1 p.2 :: rateLimitTimes (rateLimitStep last0 p.1 p.2) ps


/-! ## Theorems -/

/-- C3: `normalize("123 Main Street", "Seattle", "wa", "98101-1234")` and
`normalize("123 MAIN ST APT 4", "SEATTLE", "WA", "98101")` both return
exactly `"123 MAIN ST|SEATTLE|WA|98101"`: upper-casing, trailing-unit
stripping, whole-word suffix abbreviation, ZIP truncation to 5
characters, and pipe-delimited concatenation make the two inputs produce
the same key. -/
theorem C3_normalization_equivalence :
    normalize_address_key "123 Main Street" "Seattle" "wa" "98101-1234" =
      "123 MAIN ST|SEATTLE|WA|98101" ∧
    normalize_address_key "123 MAIN ST APT 4" "SEATTLE" "WA" "98101" =
      "123 MAIN ST|SEATTLE|WA|98101" :=
  ⟨by decide, by decide⟩

/-! ### Rate limiter lemmas (C9) -/

theorem rateLimitStep_ge (last t1 d : ℚ) (hd : 0 ≤ d) :
    last + RATE_LIMIT_DELAY ≤ rateLimitStep last t1 d := by
  unfold rateLimitStep
  split
  · linarith
  · rename_i h
    push_neg at h
    linarith

theorem rateLimitTimes_length (last0 : ℚ) (ps : List (ℚ × ℚ)) :
    (rateLimitTimes last0 ps).length = ps.length := by
  induction ps generalizing last0 with
  | nil => rfl
  | cons p ps ih => simp [rateLimitTimes, ih]

theorem rateLimitTimes_get_succ :
    ∀ ps : List (ℚ × ℚ), ∀ last0 : ℚ, (∀ p ∈ ps, 0 ≤ p.2) →
    ∀ i : Nat, ∀ h : i + 1 < (rateLimitTimes last0 ps).length,
    (rateLimitTimes last0 ps).get ⟨i, by omega⟩ + RATE_LIMIT_DELAY ≤
      (rateLimitTimes last0 ps).get ⟨i + 1, h⟩ := by
  intro ps
  induction ps with
  | nil => intro last0 hs i h; simp [rateLimitTimes] at h
  | cons p ps ih =>
    intro last0 hs i h
    cases i with
    | zero =>
      cases ps with
      | nil => simp [rateLimitTimes] at h
      | cons q qs =>
        show rateLimitStep last0 p.1 p.2 + RATE_LIMIT_DELAY ≤
          rateLimitStep (rateLimitStep last0 p.1 p.2) q.1 q.2
        exact rateLimitStep_ge _ _ _ (hs q (by simp))
    | succ j =>
      have h2 : j + 1 < (rateLimitTimes (rateLimitStep last0 p.1 p.2) ps).length := by
        simp only [rateLimitTimes, List.length_cons] at h
        omega
      exact ih (rateLimitStep last0 p.1 p.2) (fun q hq => hs q (by simp [hq])) j h2

theorem rateLimitTimes_get_add :
    ∀ k : Nat, ∀ ps : List (ℚ × ℚ), ∀ last0 : ℚ, (∀ p ∈ ps, 0 ≤ p.2) →
    ∀ i : Nat, ∀ h : i + k < (rateLimitTimes last0 ps).length,
    (rateLimitTimes last0 ps).get ⟨i, by omega⟩ + (k : ℚ) * RATE_LIMIT_DELAY ≤
      (rateLimitTimes last0 ps).get ⟨i + k, h⟩ := by
  intro k
  induction k with
  | zero => intro ps last0 hs i h; simp
  | succ k ih =>
    intro ps last0 hs i h
    have h1 : i + k < (rateLimitTimes last0 ps).length := by omega
    have h2 : (i + k) + 1 < (rateLimitTimes last0 ps).length := by omega
    have ha := ih ps last0 hs i h1
    have hb := rateLimitTimes_get_succ ps last0 hs (i + k) h2
    have hidx : (⟨i + (k + 1), h⟩ : Fin (rateLimitTimes last0 ps).length) =
        ⟨(i + k) + 1, h2⟩ := Fin.mk_eq_mk.mpr (by omega)
    rw [hidx]
    push_cast
    linarith

/-- C9: between the starts of any two consecutive provider calls issued
through the rate limiter, at least `RATE_LIMIT_DELAY = 0.05` seconds
elapse; consequently a sequence of `N` rate-limited provider calls spans
at least `(N-1) × 0.05` seconds, and no call starts less than one second
after the call twenty places before it (≤ 20 requests per second).
Hypothesis: the scheduling slacks are nonnegative (`time.sleep` waits at
least the requested duration; clock readings after the sleep are not
earlier than the wake-up time). -/
theorem C9_rate_limiting (ps : List (ℚ × ℚ)) (last0 : ℚ)
    (hs : ∀ p ∈ ps, 0 ≤ p.2) :
    (∀ i : Nat, ∀ h : i + 1 < (rateLimitTimes last0 ps).length,
      (rateLimitTimes last0 ps).get ⟨i, by omega⟩ + RATE_LIMIT_DELAY ≤
        (rateLimitTimes last0 ps).get ⟨i + 1, h⟩) ∧
    (∀ h : 0 < (rateLimitTimes last0 ps).length,
      (rateLimitTimes last0 ps).get ⟨0, h⟩ +
          ((ps.length - 1 : Nat) : ℚ) * RATE_LIMIT_DELAY ≤
        (rateLimitTimes last0 ps).get ⟨(rateLimitTimes last0 ps).length - 1, by omega⟩) ∧
    (∀ i : Nat, ∀ h : i + 20 < (rateLimitTimes last0 ps).length,
      (rateLimitTimes last0 ps).get ⟨i, by omega⟩ + 1 ≤
        (rateLimitTimes last0 ps).get ⟨i + 20, h⟩) := by
  refine ⟨fun i h => rateLimitTimes_get_succ ps last0 hs i h, fun h => ?_, fun i h => ?_⟩
  · have hlen := rateLimitTimes_length last0 ps
    have h1 : 0 + ((rateLimitTimes last0 ps).length - 1) <
        (rateLimitTimes last0 ps).length := by omega
    have := rateLimitTimes_get_add ((rateLimitTimes last0 ps).length - 1) ps last0 hs 0 h1
    have heq : (0 : Nat) + ((rateLimitTimes last0 ps).length - 1) =
        (rateLimitTimes last0 ps).length - 1 := by omega
    simp only [hlen] at this ⊢
    convert this using 3 <;> omega
  · have := rateLimitTimes_get_add 20 ps last0 hs i h
    have h20 : ((20 : Nat) : ℚ) * RATE_LIMIT_DELAY = 1 := by
      norm_num [RATE_LIMIT_DELAY]
    rw [h20] at this
    exact this

/-- Witness for C9 at a concrete trace of three calls with zero slack. -/
theorem C9_rate_limiting_witness :
    (∀ p ∈ [((0 : ℚ), (0 : ℚ)), (0, 0), (0, 0)], 0 ≤ p.2) ∧
    ((∀ i : Nat, ∀ h : i + 1 < (rateLimitTimes 0 [((0 : ℚ), (0 : ℚ)), (0, 0), (0, 0)]).length,
      (rateLimitTimes 0 [((0 : ℚ), (0 : ℚ)), (0, 0), (0, 0)]).get ⟨i, by omega⟩ + RATE_LIMIT_DELAY ≤
        (rateLimitTimes 0 [((0 : ℚ), (0 : ℚ)), (0, 0), (0, 0)]).get ⟨i + 1, h⟩) ∧
    (∀ h : 0 < (rateLimitTimes 0 [((0 : ℚ), (0 : ℚ)), (0, 0), (0, 0)]).length,
      (rateLimitTimes 0 [((0 : ℚ), (0 : ℚ)), (0, 0), (0, 0)]).get ⟨0, h⟩ +
          (([((0 : ℚ), (0 : ℚ)), (0, 0), (0, 0)].length - 1 : Nat) : ℚ) * RATE_LIMIT_DELAY ≤
        (rateLimitTimes 0 [((0 : ℚ), (0 : ℚ)), (0, 0), (0, 0)]).get
          ⟨(rateLimitTimes 0 [((0 : ℚ), (0 : ℚ)), (0, 0), (0, 0)]).length - 1, by omega⟩) ∧
    (∀ i : Nat, ∀ h : i + 20 < (rateLimitTimes 0 [((0 : ℚ), (0 : ℚ)), (0, 0), (0, 0)]).length,
      (rateLimitTimes 0 [((0 : ℚ), (0 : ℚ)), (0, 0), (0, 0)]).get ⟨i, by omega⟩ + 1 ≤
        (rateLimitTimes 0 [((0 : ℚ), (0 : ℚ)), (0, 0), (0, 0)]).get ⟨i + 20, h⟩)) :=
  ⟨by decide, C9_rate_limiting [((0 : ℚ), (0 : ℚ)), (0, 0), (0, 0)] 0 (by decide)⟩


/-! ### Store lemmas -/

theorem storeFind_some_key (st : Store) (k : String) (e : Entry)
    (h : storeFind st k = some e) : e.address_key = k := by
  have := List.find?_some h
  simpa using this

theorem storeFind_replaceFirst_self (st : Store) (k : String) (e x : Entry)
    (h : storeFind st k = some e) (hx : x.address_key = k) :
    storeFind (replaceFirst st k x) k = some x := by
  induction st with
  | nil => simp [storeFind, List.find?] at h
  | cons a t ih =>
    simp only [storeFind, List.find?] at h
    by_cases ha : a.address_key = k
    · simp [replaceFirst, storeFind, List.find?, ha, hx]
    · simp only [ha, decide_eq_true_eq, decide_eq_false ha, if_false] at h
      have hfa : (a.address_key = k) = False := eq_false ha
      simp only [replaceFirst, if_neg ha, storeFind, List.find?, decide_eq_false ha, hfa]
      exact ih (by simpa [storeFind] using h)

theorem storeFind_replaceFirst_other (st : Store) (k k2 : String) (x : Entry)
    (hne : k2 ≠ k) (hx : x.address_key = k) :
    storeFind (replaceFirst st k x) k2 = storeFind st k2 := by
  induction st with
  | nil => rfl
  | cons a t ih =>
    by_cases ha : a.address_key = k
    · have hxa : (x.address_key = k2) = False := by
        rw [hx]
        exact eq_false (fun hk => hne hk.symm)
      have haa : (a.address_key = k2) = False := by
        rw [ha]
        exact eq_false (fun hk => hne hk.symm)
      simp [replaceFirst, if_pos ha, storeFind, List.find?, hxa, haa]
    · simp only [replaceFirst, if_neg ha, storeFind, List.find?]
      by_cases hb : a.address_key = k2
      · simp [hb]
      · simp only [decide_eq_false hb, Bool.false_eq_true, if_false]
        exact ih

theorem storeFind_append_single (st : Store) (k : String) (x : Entry)
    (h : storeFind st k = none) (hx : x.address_key = k) :
    storeFind (st ++ [x]) k = some x := by
  induction st with
  | nil => simp [storeFind, List.find?, hx]
  | cons a t ih =>
    simp only [storeFind, List.find?] at h ⊢
    by_cases ha : a.address_key = k
    · simp [ha] at h
    · simp only [decide_eq_false ha, Bool.false_eq_true, if_false] at h ⊢
      exact ih h

theorem storeFind_append_single_other (st : Store) (k k2 : String) (x : Entry)
    (hne : k2 ≠ k) (hx : x.address_key = k) :
    storeFind (st ++ [x]) k2 = storeFind st k2 := by
  induction st with
  | nil =>
    have hxa : (x.address_key = k2) = False := by
      rw [hx]
      exact eq_false (fun hk => hne hk.symm)
    simp [storeFind, List.find?, hxa]
  | cons a t ih =>
    simp only [storeFind, List.find?] at ih ⊢
    by_cases hb : a.address_key = k2
    · simp [hb]
    · simp only [decide_eq_false hb, Bool.false_eq_true, if_false]
      exact ih

/-! ### C7: cache statistics -/

/-- A store state whose single entry has a latitude but no longitude:
the code counts it as valid, the claim (both coordinates present) does
not. -/
def entryLatOnly : Entry :=
  { address_key := "A|B|C|D"
    street := "A"
    city := "B"
    state := "C"
    zip_code := "D"
    latitude := some 1
    longitude := none
    formatted_address := none
    place_id := none
    accuracy := none
    location_type := none
    confidence := none
    geocode_provider := "google_maps"
    geocoded_at := none
    api_response_json := none
    error_message := none
    retry_count := 0
    last_error_at := none
    usage_count := 1
    last_used_at := none
    created_at := 0
    updated_at := none }

/-- C7 counterexample: on the store `[entryLatOnly]` the code's
`validCount` is 1 (it filters on `latitude IS NOT NULL` only), while the
number of entries that are valid in the claim's sense (both `latitude`
and `longitude` present, i.e. `Entry.is_valid`) is 0, refuting the
claimed equality for arbitrary store states. -/
theorem C7_counterexample :
    ¬ ((get_cache_stats [entryLatOnly]).valid =
        (([entryLatOnly] : Store).filter (fun e => e.is_valid)).length) := by
  decide

/-- C7 (amended): `getCacheStats` returns `totalCached` = number of
entries, `validCount` = number of entries with `latitude` present (the
code tests only latitude; this count equals the number of entries with
both coordinates present whenever latitude and longitude presence
coincide, which holds in every state the service itself produces),
`failedCount` = number of entries with `errorMessage` present,
`totalUsageCount` = sum of `usageCount`, `apiCallsSaved` =
`totalUsageCount − totalCached`, `estimatedCostUSD` = `totalCached ×
0.005` and `estimatedSavingsUSD` = `apiCallsSaved × 0.005`. -/
theorem C7_cache_stats_amended (st : Store) :
    (get_cache_stats st).total_cached = st.length ∧
    (get_cache_stats st).valid = (st.filter (fun e => e.latitude.isSome)).length ∧
    (get_cache_stats st).failed = (st.filter (fun e => e.error_message.isSome)).length ∧
    (get_cache_stats st).total_lookups = (st.map (fun e => e.usage_count)).sum ∧
    (get_cache_stats st).api_calls_saved =
      ((st.map (fun e => e.usage_count)).sum : Int) - (st.length : Int) ∧
    (get_cache_stats st).estimated_cost = ((st.length : Nat) : ℚ) * (5 / 1000) ∧
    (get_cache_stats st).estimated_savings =
      ((get_cache_stats st).api_calls_saved : ℚ) * (5 / 1000) ∧
    ((∀ e ∈ st, e.latitude.isSome = e.longitude.isSome) →
      (get_cache_stats st).valid = (st.filter (fun e => e.is_valid)).length) := by
  refine ⟨rfl, rfl, rfl, rfl, rfl, rfl, rfl, fun hiff => ?_⟩
  show (st.filter (fun e => e.latitude.isSome)).length = _
  congr 1
  apply List.filter_congr
  intro e he
  simp [Entry.is_valid, hiff e he]

/-- A 100-entry store with total usage 140, matching the worked example
in the claim. -/
def stats100Store : Store :=
  List.replicate 99 entryLatOnly ++ [{ entryLatOnly with usage_count := 41 }]

/-- Witness for C7 (amended) on the 100/140 example: `apiCallsSaved` is
40 and `estimatedSavingsUSD` is `40 × 0.005 = 0.2`. -/
theorem C7_cache_stats_amended_witness :
    (∀ e ∈ ([entryLatOnly] : Store), e.latitude.isSome = e.longitude.isSome) = False ∧
    (get_cache_stats [entryLatOnly]).valid = 1 ∧
    (get_cache_stats stats100Store).total_cached = 100 ∧
    (get_cache_stats stats100Store).total_lookups = 140 ∧
    (get_cache_stats stats100Store).api_calls_saved = 40 ∧
    (get_cache_stats stats100Store).estimated_savings = (40 : ℚ) * (5 / 1000) ∧
    (get_cache_stats stats100Store).estimated_cost = (100 : ℚ) * (5 / 1000) ∧
    ((get_cache_stats stats100Store).total_cached = stats100Store.length ∧
      (get_cache_stats stats100Store).api_calls_saved =
        ((stats100Store.map (fun e => e.usage_count)).sum : Int) - (stats100Store.length : Int)) := by
  have hsum : ((stats100Store.map (fun e => e.usage_count)).sum : Int) = 140 := by decide
  have hlen : ((stats100Store.length : Nat) : Int) = 100 := by decide
  have hlen2 : (stats100Store.length : Nat) = 100 := by decide
  refine ⟨by decide, by decide, by decide, by decide, by decide, ?_, ?_, ?_⟩
  · show ((((stats100Store.map (fun e => e.usage_count)).sum : Int) -
        (stats100Store.length : Int) : Int) : ℚ) * (5 / 1000) = (40 : ℚ) * (5 / 1000)
    rw [hsum, hlen]
    norm_num
  · show (((stats100Store.length : Nat) : ℚ)) * (5 / 1000) = (100 : ℚ) * (5 / 1000)
    rw [hlen2]
    norm_num
  · exact ⟨(C7_cache_stats_amended stats100Store).1,
      (C7_cache_stats_amended stats100Store).2.2.2.2.1⟩


/-! ### Path lemmas for `geocode_address` -/

/-- With no injected failure, a call that is forced or whose cache entry
is absent or invalid proceeds to the miss/refresh tail. -/
theorem geocodeCore_miss (env : Env) (st : Store) (street city state zip : String)
    (force : Bool) (now : Time)
    (hf : env.fail = none)
    (hmiss : force = true ∨
      ∀ e, storeFind st (normalize_address_key street city state zip) = some e →
        e.is_valid = false) :
    geocodeCore env st street city state zip force now =
      geocodeMiss env st (normalize_address_key street city state zip)
        street city state zip now := by
  unfold geocodeCore
  cases force with
  | true => simp
  | false =>
    simp only [hf]
    have hcond : ¬ ((none : Option FailPoint) = some FailPoint.lookupQuery) := by simp
    rw [if_pos trivial, if_neg hcond]
    cases hfind : storeFind st (normalize_address_key street city state zip) with
    | none => simp
    | some e =>
      have hv : e.is_valid = false := by
        rcases hmiss with h | h
        · exact absurd h (by simp)
        · exact h e hfind
      simp only
      cases hla : e.latitude with
      | none => simp
      | some la =>
        cases hlo : e.longitude with
        | none => simp
        | some lo =>
          exfalso
          rw [Entry.is_valid, hla, hlo] at hv
          simp at hv

/-- The successful-provider miss tail: uses the first candidate, maps
accuracy to confidence, upserts, and returns an uncached result. -/
theorem geocodeMiss_first_candidate (env : Env) (st : Store)
    (key street city state zip : String) (now : Time)
    (c : Candidate) (rest : List Candidate)
    (hkey : key = normalize_address_key street city state zip)
    (hp : env.provider = ProviderOutcome.ok (c :: rest))
    (hf : env.fail = none) :
    ∃ st1 : Store,
      geocodeMiss env st key street city state zip now =
        Except.ok ⟨some { lat := c.lat, lng := c.lng,
                          accuracy := some (c.location_type.getD "UNKNOWN"),
                          confidence := some (CONFIDENCE_MAP (c.location_type.getD "UNKNOWN")),
                          formatted_address := c.formatted_address,
                          place_id := c.place_id,
                          cached := false }, st1, true⟩ ∧
      ∃ e2 : Entry,
        storeFind st1 key = some e2 ∧
        e2.latitude = some c.lat ∧ e2.longitude = some c.lng ∧
        e2.accuracy = some (c.location_type.getD "UNKNOWN") ∧
        e2.confidence = some (CONFIDENCE_MAP (c.location_type.getD "UNKNOWN")) := by
  unfold geocodeMiss
  rw [hp]
  simp only [hf]
  have h1 : ¬ ((none : Option FailPoint) = some FailPoint.upsertQuery) := by simp
  have h2 : ¬ ((none : Option FailPoint) = some FailPoint.mainCommit) := by simp
  rw [if_neg h1, if_neg h2]
  cases hfind : storeFind st key with
  | some e =>
    refine ⟨_, rfl, ?_⟩
    have hek : e.address_key = key := storeFind_some_key st key e hfind
    refine ⟨_, storeFind_replaceFirst_self st key e _ hfind hek, rfl, rfl, rfl, rfl⟩
  | none =>
    refine ⟨_, rfl, ?_⟩
    refine ⟨_, storeFind_append_single st key _ hfind rfl, rfl, rfl, rfl, rfl⟩

/-- C1: whenever a `geocode_address` call reaches the provider (forced
refresh, or no valid cache entry) and the provider returns a non-empty
candidate list, the service uses exactly the first candidate: the result
carries that candidate's coordinates and metadata, its `confidence` is
the fixed mapping of the candidate's accuracy code (`ROOFTOP → high`,
`RANGE_INTERPOLATED`/`GEOMETRIC_CENTER → medium`, anything else,
including a missing code read as `UNKNOWN`, `→ low`), the result is
tagged `cached = false`, and the store afterwards holds an entry for the
normalized key with the candidate's coordinates, accuracy and derived
confidence. -/
theorem C1_fresh_geocode (env : Env) (st : Store) (street city state zip : String)
    (force : Bool) (now : Time) (c : Candidate) (rest : List Candidate)
    (hp : env.provider = ProviderOutcome.ok (c :: rest))
    (hf : env.fail = none)
    (hmiss : force = true ∨
      ∀ e, storeFind st (normalize_address_key street city state zip) = some e →
        e.is_valid = false) :
    (∃ st1 : Store,
      geocode_address env st street city state zip force now =
        (some { lat := c.lat, lng := c.lng,
                accuracy := some (c.location_type.getD "UNKNOWN"),
                confidence := some (CONFIDENCE_MAP (c.location_type.getD "UNKNOWN")),
                formatted_address := c.formatted_address,
                place_id := c.place_id,
                cached := false }, st1) ∧
      ∃ e2 : Entry,
        storeFind st1 (normalize_address_key street city state zip) = some e2 ∧
        e2.latitude = some c.lat ∧ e2.longitude = some c.lng ∧
        e2.accuracy = some (c.location_type.getD "UNKNOWN") ∧
        e2.confidence = some (CONFIDENCE_MAP (c.location_type.getD "UNKNOWN"))) ∧
    (CONFIDENCE_MAP "ROOFTOP" = "high" ∧
     CONFIDENCE_MAP "RANGE_INTERPOLATED" = "medium" ∧
     CONFIDENCE_MAP "GEOMETRIC_CENTER" = "medium" ∧
     ∀ a : String, a ≠ "ROOFTOP" → a ≠ "RANGE_INTERPOLATED" →
       a ≠ "GEOMETRIC_CENTER" → CONFIDENCE_MAP a = "low") := by
  constructor
  · obtain ⟨st1, hrun, e2, hfind, h1, h2, h3, h4⟩ :=
      geocodeMiss_first_candidate env st (normalize_address_key street city state zip)
        street city state zip now c rest rfl hp hf
    refine ⟨st1, ?_, e2, hfind, h1, h2, h3, h4⟩
    unfold geocode_address
    rw [geocodeCore_miss env st street city state zip force now hf hmiss, hrun]
  · refine ⟨rfl, rfl, rfl, fun a ha1 ha2 ha3 => ?_⟩
    unfold CONFIDENCE_MAP
    rw [if_neg ha1, if_neg ha2, if_neg ha3]
    split <;> rfl

/-- Witness for C1: a forced refresh on the empty store with a single
`ROOFTOP` candidate. -/
theorem C1_fresh_geocode_witness :
    ((⟨ProviderOutcome.ok [⟨47, -122, some "ROOFTOP", some "F", some "P", "raw"⟩], none⟩ :
        Env).provider =
      ProviderOutcome.ok [⟨47, -122, some "ROOFTOP", some "F", some "P", "raw"⟩]) ∧
    ((∃ st1 : Store,
      geocode_address ⟨ProviderOutcome.ok [⟨47, -122, some "ROOFTOP", some "F", some "P", "raw"⟩], none⟩
          [] "1702 NE 65th St" "Seattle" "WA" "98115" true 7 =
        (some { lat := 47, lng := -122,
                accuracy := some ((some "ROOFTOP").getD "UNKNOWN"),
                confidence := some (CONFIDENCE_MAP ((some "ROOFTOP").getD "UNKNOWN")),
                formatted_address := some "F",
                place_id := some "P",
                cached := false }, st1) ∧
      ∃ e2 : Entry,
        storeFind st1 (normalize_address_key "1702 NE 65th St" "Seattle" "WA" "98115") = some e2 ∧
        e2.latitude = some 47 ∧ e2.longitude = some (-122) ∧
        e2.accuracy = some ((some "ROOFTOP").getD "UNKNOWN") ∧
        e2.confidence = some (CONFIDENCE_MAP ((some "ROOFTOP").getD "UNKNOWN"))) ∧
    (CONFIDENCE_MAP "ROOFTOP" = "high" ∧
     CONFIDENCE_MAP "RANGE_INTERPOLATED" = "medium" ∧
     CONFIDENCE_MAP "GEOMETRIC_CENTER" = "medium" ∧
     ∀ a : String, a ≠ "ROOFTOP" → a ≠ "RANGE_INTERPOLATED" →
       a ≠ "GEOMETRIC_CENTER" → CONFIDENCE_MAP a = "low")) :=
  ⟨rfl, C1_fresh_geocode
    ⟨ProviderOutcome.ok [⟨47, -122, some "ROOFTOP", some "F", some "P", "raw"⟩], none⟩
    [] "1702 NE 65th St" "Seattle" "WA" "98115" true 7
    ⟨47, -122, some "ROOFTOP", some "F", some "P", "raw"⟩ [] rfl rfl (Or.inl rfl)⟩


/-! ### C2: cache hits -/

/-- The cache-hit path of `geocode_address` (lines 175–197): with no
injected failure, a non-forced call whose entry has both coordinates
returns the stored data tagged `cached = true`, updates only
`usage_count` and `last_used_at`, and does not call the provider. -/
theorem geocodeCore_hit (env : Env) (st : Store) (street city state zip : String)
    (now : Time) (e : Entry) (la lo : Int)
    (hf : env.fail = none)
    (he : storeFind st (normalize_address_key street city state zip) = some e)
    (hla : e.latitude = some la) (hlo : e.longitude = some lo) :
    geocodeCore env st street city state zip false now =
      Except.ok ⟨some { lat := la, lng := lo,
                        accuracy := e.accuracy, confidence := e.confidence,
                        formatted_address := e.formatted_address, place_id := e.place_id,
                        cached := true },
        replaceFirst st (normalize_address_key street city state zip)
          { e with usage_count := e.usage_count + 1, last_used_at := some now },
        false⟩ := by
  unfold geocodeCore
  simp only [hf]
  rw [if_pos trivial, if_neg (by simp : ¬ ((none : Option FailPoint) = some FailPoint.lookupQuery))]
  rw [he]
  simp only [hla, hlo]
  rw [if_neg (by simp : ¬ ((none : Option FailPoint) = some FailPoint.hitCommit))]

/-- `n` successive non-forced `geocode_address` calls with the same
inputs, threading the store. -/
def iterCalls (env : Env) (street city state zip : String) (now : Time) :
    Nat → Store → Store
  | 0, st => st
  | n + 1, st =>
      iterCalls env street city state zip now n
        (geocode_address env st street city state zip false now).2

/-- The entry after `n` cache hits: only `usage_count` and
`last_used_at` move. -/
def hitEntry (e : Entry) (now : Time) : Nat → Entry
  | 0 => e
  | n + 1 => { e with usage_count := e.usage_count + (n + 1), last_used_at := some now }

theorem iterCalls_hit (env : Env) (street city state zip : String) (now : Time)
    (hf : env.fail = none) :
    ∀ n : Nat, ∀ st : Store, ∀ e : Entry, ∀ la lo : Int,
    storeFind st (normalize_address_key street city state zip) = some e →
    e.latitude = some la → e.longitude = some lo →
    storeFind (iterCalls env street city state zip now n st)
        (normalize_address_key street city state zip) = some (hitEntry e now n) := by
  intro n
  induction n with
  | zero => intro st e la lo he hla hlo; exact he
  | succ n ih =>
    intro st e la lo he hla hlo
    have hek : e.address_key = normalize_address_key street city state zip :=
      storeFind_some_key _ _ _ he
    have hstep : (geocode_address env st street city state zip false now).2 =
        replaceFirst st (normalize_address_key street city state zip)
          { e with usage_count := e.usage_count + 1, last_used_at := some now } := by
      unfold geocode_address
      rw [geocodeCore_hit env st street city state zip now e la lo hf he hla hlo]
    show storeFind (iterCalls env street city state zip now n
        (geocode_address env st street city state zip false now).2) _ = _
    rw [hstep]
    have hfind2 : storeFind
        (replaceFirst st (normalize_address_key street city state zip)
          { e with usage_count := e.usage_count + 1, last_used_at := some now })
        (normalize_address_key street city state zip) =
        some { e with usage_count := e.usage_count + 1, last_used_at := some now } :=
      storeFind_replaceFirst_self st _ e _ he hek
    have := ih (replaceFirst st (normalize_address_key street city state zip)
        { e with usage_count := e.usage_count + 1, last_used_at := some now })
      { e with usage_count := e.usage_count + 1, last_used_at := some now } la lo hfind2 hla hlo
    rw [this]
    congr 1
    cases n with
    | zero => rfl
    | succ m =>
      show ({ e with usage_count := (e.usage_count + 1) + (m + 1), last_used_at := some now } : Entry) =
        { e with usage_count := e.usage_count + (m + 1 + 1), last_used_at := some now }
      congr 1
      omega

/-- C2: a non-forced call on a key whose stored entry has both
coordinates returns the stored coordinates, accuracy, confidence,
formatted address and place id tagged `cached = true`, performs no
provider call, increments the entry's `usage_count` by exactly one and
sets `last_used_at`, leaving every other field (in particular the
coordinates) unchanged; iterating such calls increases `usage_count` by
exactly one per call and never changes the stored coordinates. -/
theorem C2_cache_hit (env : Env) (st : Store) (street city state zip : String)
    (now : Time) (e : Entry) (la lo : Int)
    (hf : env.fail = none)
    (he : storeFind st (normalize_address_key street city state zip) = some e)
    (hla : e.latitude = some la) (hlo : e.longitude = some lo) :
    (geocode_address env st street city state zip false now =
      (some { lat := la, lng := lo,
              accuracy := e.accuracy, confidence := e.confidence,
              formatted_address := e.formatted_address, place_id := e.place_id,
              cached := true },
        replaceFirst st (normalize_address_key street city state zip)
          { e with usage_count := e.usage_count + 1, last_used_at := some now })) ∧
    (∃ out : StepOut, geocodeCore env st street city state zip false now = Except.ok out ∧
      out.providerCalled = false) ∧
    (∀ n : Nat,
      storeFind (iterCalls env street city state zip now n st)
          (normalize_address_key street city state zip) = some (hitEntry e now n) ∧
      (hitEntry e now n).usage_count = e.usage_count + n ∧
      (hitEntry e now n).latitude = e.latitude ∧
      (hitEntry e now n).longitude = e.longitude ∧
      (hitEntry e now n).accuracy = e.accuracy ∧
      (hitEntry e now n).confidence = e.confidence ∧
      (hitEntry e now n).formatted_address = e.formatted_address ∧
      (hitEntry e now n).place_id = e.place_id) := by
  have hcore := geocodeCore_hit env st street city state zip now e la lo hf he hla hlo
  refine ⟨?_, ⟨_, hcore, rfl⟩, fun n => ?_⟩
  · unfold geocode_address
    rw [hcore]
  · refine ⟨iterCalls_hit env street city state zip now hf n st e la lo he hla hlo, ?_, ?_, ?_, ?_, ?_, ?_, ?_⟩
    all_goals cases n <;> simp [hitEntry]

/-- Witness for C2: one valid cached entry, three iterated hits. -/
theorem C2_cache_hit_witness :
    ((⟨ProviderOutcome.otherError, none⟩ : Env).fail = none) ∧
    (let e0 : Entry := { entryLatOnly with
        address_key := normalize_address_key "1702 NE 65th St" "Seattle" "WA" "98115",
        longitude := some (-122) }
    (geocode_address ⟨ProviderOutcome.otherError, none⟩ [e0]
        "1702 NE 65th St" "Seattle" "WA" "98115" false 9 =
      (some { lat := 1, lng := -122,
              accuracy := e0.accuracy, confidence := e0.confidence,
              formatted_address := e0.formatted_address, place_id := e0.place_id,
              cached := true },
        replaceFirst [e0] (normalize_address_key "1702 NE 65th St" "Seattle" "WA" "98115")
          { e0 with usage_count := e0.usage_count + 1, last_used_at := some 9 })) ∧
    (∃ out : StepOut, geocodeCore ⟨ProviderOutcome.otherError, none⟩ [e0]
        "1702 NE 65th St" "Seattle" "WA" "98115" false 9 = Except.ok out ∧
      out.providerCalled = false) ∧
    (∀ n : Nat,
      storeFind (iterCalls ⟨ProviderOutcome.otherError, none⟩
          "1702 NE 65th St" "Seattle" "WA" "98115" 9 n [e0])
          (normalize_address_key "1702 NE 65th St" "Seattle" "WA" "98115") =
        some (hitEntry e0 9 n) ∧
      (hitEntry e0 9 n).usage_count = e0.usage_count + n ∧
      (hitEntry e0 9 n).latitude = e0.latitude ∧
      (hitEntry e0 9 n).longitude = e0.longitude ∧
      (hitEntry e0 9 n).accuracy = e0.accuracy ∧
      (hitEntry e0 9 n).confidence = e0.confidence ∧
      (hitEntry e0 9 n).formatted_address = e0.formatted_address ∧
      (hitEntry e0 9 n).place_id = e0.place_id)) :=
  ⟨rfl, C2_cache_hit ⟨ProviderOutcome.otherError, none⟩ _
    "1702 NE 65th St" "Seattle" "WA" "98115" 9 _ 1 (-122) rfl (by decide) rfl rfl⟩


/-! ### C10: frame of a successful re-geocode of an existing entry -/

/-- C10: when a successful geocode updates an already-existing entry
(forced refresh of a valid entry, or retry of an errored one), only
`error_message` among the error fields is cleared: `retry_count` and
`last_error_at` keep their previous values, and the stored original
street/city/state/zip (and `created_at`) remain those recorded at the
entry's creation, even though the current call may have supplied
differently-spelled raw components mapping to the same key. -/
theorem C10_update_frame (env : Env) (st : Store) (street city state zip : String)
    (force : Bool) (now : Time) (c : Candidate) (rest : List Candidate) (e : Entry)
    (hp : env.provider = ProviderOutcome.ok (c :: rest))
    (hf : env.fail = none)
    (he : storeFind st (normalize_address_key street city state zip) = some e)
    (hmiss : force = true ∨ e.is_valid = false) :
    ∃ e2 : Entry,
      storeFind (geocode_address env st street city state zip force now).2
          (normalize_address_key street city state zip) = some e2 ∧
      e2.error_message = none ∧
      e2.retry_count = e.retry_count ∧
      e2.last_error_at = e.last_error_at ∧
      e2.street = e.street ∧ e2.city = e.city ∧
      e2.state = e.state ∧ e2.zip_code = e.zip_code ∧
      e2.created_at = e.created_at ∧
      e2.latitude = some c.lat ∧ e2.longitude = some c.lng := by
  have hmiss2 : force = true ∨
      ∀ e3, storeFind st (normalize_address_key street city state zip) = some e3 →
        e3.is_valid = false := by
    rcases hmiss with h | h
    · exact Or.inl h
    · refine Or.inr fun e3 he3 => ?_
      rw [he3] at he
      cases he
      exact h
  have hek : e.address_key = normalize_address_key street city state zip :=
    storeFind_some_key _ _ _ he
  unfold geocode_address
  rw [geocodeCore_miss env st street city state zip force now hf hmiss2]
  unfold geocodeMiss
  rw [hp]
  simp only [hf]
  rw [if_neg (by simp : ¬ ((none : Option FailPoint) = some FailPoint.upsertQuery)),
    if_neg (by simp : ¬ ((none : Option FailPoint) = some FailPoint.mainCommit))]
  rw [he]
  exact ⟨_, storeFind_replaceFirst_self st _ e _ he hek, rfl, rfl, rfl, rfl, rfl, rfl,
    rfl, rfl, rfl, rfl⟩

/-- Witness for C10: forced refresh over a store holding an errored
entry for the key. -/
theorem C10_update_frame_witness :
    ((⟨ProviderOutcome.ok [⟨5, 6, none, none, none, "raw"⟩], none⟩ : Env).provider =
      ProviderOutcome.ok [⟨5, 6, none, none, none, "raw"⟩]) ∧
    (let eold : Entry := { entryLatOnly with
        address_key := normalize_address_key "A St" "B" "C" "D",
        latitude := none, error_message := some "No results", retry_count := 3,
        last_error_at := some 2 }
    ∃ e2 : Entry,
      storeFind (geocode_address ⟨ProviderOutcome.ok [⟨5, 6, none, none, none, "raw"⟩], none⟩
          [eold] "A St" "B" "C" "D" false 11).2
          (normalize_address_key "A St" "B" "C" "D") = some e2 ∧
      e2.error_message = none ∧
      e2.retry_count = eold.retry_count ∧
      e2.last_error_at = eold.last_error_at ∧
      e2.street = eold.street ∧ e2.city = eold.city ∧
      e2.state = eold.state ∧ e2.zip_code = eold.zip_code ∧
      e2.created_at = eold.created_at ∧
      e2.latitude = some 5 ∧ e2.longitude = some 6) :=
  ⟨rfl, C10_update_frame ⟨ProviderOutcome.ok [⟨5, 6, none, none, none, "raw"⟩], none⟩
    _ "A St" "B" "C" "D" false 11 ⟨5, 6, none, none, none, "raw"⟩ [] _
    rfl rfl (by decide) (Or.inr (by decide))⟩

/-! ### C5: `_record_error` -/

/-- C5: with the store reachable, `_record_error` on an existing entry
increments `retry_count` by one and sets `error_message`/`last_error_at`
while leaving every other field — in particular the coordinates and
`usage_count` — unchanged (the `{e with ...}` record is the whole
frame); on a missing entry it creates a row holding only the identity
components and the error fields, with both coordinates and all geocode
metadata absent, `retry_count = 1`, and `usage_count` equal to the
store's creation default 1 (it is not incremented by the error path). -/
theorem C5_record_error (env : Env) (st : Store) (key street city state zip msg : String)
    (now : Time) (hf : env.fail = none) :
    (∀ e : Entry, storeFind st key = some e →
      record_error env st key street city state zip msg now =
        replaceFirst st key
          { e with error_message := some msg, retry_count := e.retry_count + 1,
                   last_error_at := some now } ∧
      storeFind (record_error env st key street city state zip msg now) key =
        some { e with error_message := some msg, retry_count := e.retry_count + 1,
                      last_error_at := some now }) ∧
    (storeFind st key = none →
      ∃ e2 : Entry,
        storeFind (record_error env st key street city state zip msg now) key = some e2 ∧
        e2.address_key = key ∧ e2.street = street ∧ e2.city = city ∧
        e2.state = state ∧ e2.zip_code = zip ∧
        e2.latitude = none ∧ e2.longitude = none ∧
        e2.formatted_address = none ∧ e2.place_id = none ∧
        e2.accuracy = none ∧ e2.location_type = none ∧ e2.confidence = none ∧
        e2.geocoded_at = none ∧ e2.api_response_json = none ∧
        e2.error_message = some msg ∧ e2.retry_count = 1 ∧
        e2.last_error_at = some now ∧ e2.usage_count = 1) := by
  have hguard : ¬ (env.fail = some FailPoint.errQuery ∨ env.fail = some FailPoint.errCommit) := by
    rw [hf]
    simp
  constructor
  · intro e he
    have hek : e.address_key = key := storeFind_some_key _ _ _ he
    unfold record_error
    rw [if_neg hguard, he]
    exact ⟨rfl, storeFind_replaceFirst_self st key e _ he hek⟩
  · intro hnone
    unfold record_error
    rw [if_neg hguard, hnone]
    exact ⟨_, storeFind_append_single st key _ hnone rfl, rfl, rfl, rfl, rfl, rfl, rfl,
      rfl, rfl, rfl, rfl, rfl, rfl, rfl, rfl, rfl, rfl, rfl, rfl⟩

/-- Witness for C5: both branches, on a one-entry store and on the empty
store. -/
theorem C5_record_error_witness :
    ((⟨ProviderOutcome.otherError, none⟩ : Env).fail = none) ∧
    ((∀ e : Entry, storeFind [entryLatOnly] "A|B|C|D" = some e →
      record_error ⟨ProviderOutcome.otherError, none⟩ [entryLatOnly] "A|B|C|D" "s" "c" "st" "z" "m" 3 =
        replaceFirst [entryLatOnly] "A|B|C|D"
          { e with error_message := some "m", retry_count := e.retry_count + 1,
                   last_error_at := some 3 } ∧
      storeFind (record_error ⟨ProviderOutcome.otherError, none⟩ [entryLatOnly] "A|B|C|D" "s" "c" "st" "z" "m" 3) "A|B|C|D" =
        some { e with error_message := some "m", retry_count := e.retry_count + 1,
                      last_error_at := some 3 }) ∧
    (storeFind [entryLatOnly] "A|B|C|D" = none →
      ∃ e2 : Entry,
        storeFind (record_error ⟨ProviderOutcome.otherError, none⟩ [entryLatOnly] "A|B|C|D" "s" "c" "st" "z" "m" 3) "A|B|C|D" = some e2 ∧
        e2.address_key = "A|B|C|D" ∧ e2.street = "s" ∧ e2.city = "c" ∧
        e2.state = "st" ∧ e2.zip_code = "z" ∧
        e2.latitude = none ∧ e2.longitude = none ∧
        e2.formatted_address = none ∧ e2.place_id = none ∧
        e2.accuracy = none ∧ e2.location_type = none ∧ e2.confidence = none ∧
        e2.geocoded_at = none ∧ e2.api_response_json = none ∧
        e2.error_message = some "m" ∧ e2.retry_count = 1 ∧
        e2.last_error_at = some 3 ∧ e2.usage_count = 1)) :=
  ⟨rfl, C5_record_error ⟨ProviderOutcome.otherError, none⟩ [entryLatOnly]
    "A|B|C|D" "s" "c" "st" "z" "m" 3 rfl⟩

/-! ### C4: the exception firewall -/

/-- C4: for every provider behavior (well-formed candidates, handled API
errors, malformed payloads, unexpected client exceptions) and every
injected store/session failure, `geocode_address` is a total function
returning either a result record or the explicit `none` marker; whenever
the `try`-body raises, the top-level handler rolls the store back to the
committed state and returns `none`, so no exception crosses the service
boundary. -/
theorem C4_firewall (env : Env) (st : Store) (street city state zip : String)
    (force : Bool) (now : Time) :
    ((geocode_address env st street city state zip force now).1 = none ∨
      ∃ r : GeocodeResult,
        (geocode_address env st street city state zip force now).1 = some r) ∧
    (∀ u : Unit, geocodeCore env st street city state zip force now = Except.error u →
      geocode_address env st street city state zip force now = (none, st)) ∧
    (∀ out : StepOut, geocodeCore env st street city state zip force now = Except.ok out →
      geocode_address env st street city state zip force now = (out.result, out.store)) := by
  refine ⟨?_, fun u hu => ?_, fun out hout => ?_⟩
  · cases h : (geocode_address env st street city state zip force now).1 with
    | none => exact Or.inl rfl
    | some r => exact Or.inr ⟨r, rfl⟩
  · unfold geocode_address
    rw [hu]
  · unfold geocode_address
    rw [hout]

/-- Witness for C4: an unexpected provider exception on the empty store
is caught and surfaces as `(none, unchanged store)`. -/
theorem C4_firewall_witness :
    (geocodeCore ⟨ProviderOutcome.otherError, none⟩ [] "A" "B" "C" "D" true 0 =
      Except.error ()) ∧
    (geocode_address ⟨ProviderOutcome.otherError, none⟩ [] "A" "B" "C" "D" true 0 =
      (none, [])) :=
  have hcore : geocodeCore ⟨ProviderOutcome.otherError, none⟩ [] "A" "B" "C" "D" true 0 =
      Except.error () := rfl
  ⟨hcore, (C4_firewall ⟨ProviderOutcome.otherError, none⟩ [] "A" "B" "C" "D" true 0).2.1 () hcore⟩


/-! ### C6: usage-count accounting over operation sequences

A `Call` is one `geocode_address` invocation (the store/session healthy,
the provider behavior arbitrary); traces fold calls over the store
starting from the empty cache. -/

structure Call where
  street : String
  city : String
  state : String
  zip : String
  force : Bool
  provider : ProviderOutcome
  now : Time

def callKey (c : Call) : String := normalize_address_key c.street c.city c.state c.zip

def callEnv (c : Call) : Env := ⟨c.provider, none⟩

def callStep (st : Store) (c : Call) : Option GeocodeResult × Store :=
  geocode_address (callEnv c) st c.street c.city c.state c.zip c.force c.now

def runTrace (cs : List Call) : Store :=
  cs.foldl (fun st c => (callStep st c).2) []

/-- `usage_count` of the entry at `k`, 0 when absent. -/
def ucOf (st : Store) (k : String) : Nat :=
  match storeFind st k with
  | some e => e.usage_count
  | none => 0

/-- Combined fold: final store, number of successful lookups of key `k`
(calls for `k` that returned a result), and whether the entry for `k`
was first created by a failed call (the error-recording path). -/
def traceStats (k : String) (cs : List Call) : Store × Nat × Bool :=
  cs.foldl (fun acc c =>
    ((callStep acc.1 c).2,
     acc.2.1 + (if (callStep acc.1 c).1.isSome = true ∧ callKey c = k then 1 else 0),
     acc.2.2 || ((storeFind acc.1 k).isNone && (storeFind (callStep acc.1 c).2 k).isSome &&
       (callStep acc.1 c).1.isNone)))
    ([], 0, false)

def succCountKey (k : String) (cs : List Call) : Nat := (traceStats k cs).2.1

def errOriginKey (k : String) (cs : List Call) : Bool := (traceStats k cs).2.2

theorem traceStats_store (k : String) (cs : List Call) :
    (traceStats k cs).1 = runTrace cs := by
  have h : ∀ (l : List Call) (ini : Store × Nat × Bool),
      (List.foldl (fun acc c =>
        ((callStep acc.1 c).2,
         acc.2.1 + (if (callStep acc.1 c).1.isSome = true ∧ callKey c = k then 1 else 0),
         acc.2.2 || ((storeFind acc.1 k).isNone && (storeFind (callStep acc.1 c).2 k).isSome &&
           (callStep acc.1 c).1.isNone))) ini l).1 =
      List.foldl (fun st c => (callStep st c).2) ini.1 l := by
    intro l
    induction l with
    | nil => intro ini; rfl
    | cons c t ih => intro ini; exact ih _
  exact h cs ([], 0, false)

/-! Frame lemmas: a call never touches entries under other keys, and
`record_error` under a healthy session behaves as in C5. -/

theorem record_error_find_other (env : Env) (st : Store)
    (key street city state zip msg : String) (now : Time) (k2 : String)
    (hne : k2 ≠ key) :
    storeFind (record_error env st key street city state zip msg now) k2 =
      storeFind st k2 := by
  unfold record_error
  by_cases hg : env.fail = some FailPoint.errQuery ∨ env.fail = some FailPoint.errCommit
  · rw [if_pos hg]
  · rw [if_neg hg]
    cases hfind : storeFind st key with
    | some e =>
      have hek : e.address_key = key := storeFind_some_key _ _ _ hfind
      exact storeFind_replaceFirst_other st key k2 _ hne hek
    | none => exact storeFind_append_single_other st key k2 _ hne rfl

theorem record_error_uc (env : Env) (st : Store)
    (key street city state zip msg : String) (now : Time)
    (hf : env.fail = none) :
    (∀ e : Entry, storeFind st key = some e →
      storeFind (record_error env st key street city state zip msg now) key =
        some { e with error_message := some msg, retry_count := e.retry_count + 1,
                      last_error_at := some now }) ∧
    (storeFind st key = none →
      ∃ e2 : Entry, storeFind (record_error env st key street city state zip msg now) key =
        some e2 ∧ e2.usage_count = 1) := by
  have h := C5_record_error env st key street city state zip msg now hf
  refine ⟨fun e he => (h.1 e he).2, fun hnone => ?_⟩
  obtain ⟨e2, hfind, hrest⟩ := h.2 hnone
  exact ⟨e2, hfind, hrest.2.2.2.2.2.2.2.2.2.2.2.2.2.2.2.2.2⟩

theorem geocodeMiss_apiError (env : Env) (st : Store)
    (key street city state zip msg : String) (now : Time)
    (hp : env.provider = ProviderOutcome.apiError msg) :
    geocodeMiss env st key street city state zip now =
      Except.ok ⟨none, record_error env st key street city state zip msg now, true⟩ := by
  unfold geocodeMiss
  rw [hp]

theorem geocodeMiss_noResults (env : Env) (st : Store)
    (key street city state zip : String) (now : Time)
    (hp : env.provider = ProviderOutcome.ok []) :
    geocodeMiss env st key street city state zip now =
      Except.ok ⟨none, record_error env st key street city state zip "No results" now, true⟩ := by
  unfold geocodeMiss
  rw [hp]

/-- The successful upsert: effect on the entry at the call's own key. -/
theorem geocodeMiss_upsert_uc (env : Env) (st : Store)
    (key street city state zip : String) (now : Time)
    (c : Candidate) (rest : List Candidate)
    (hp : env.provider = ProviderOutcome.ok (c :: rest))
    (hf : env.fail = none) :
    ∃ st1 : Store, ∃ res : GeocodeResult,
      geocodeMiss env st key street city state zip now = Except.ok ⟨some res, st1, true⟩ ∧
      (∀ e : Entry, storeFind st key = some e →
        ∃ e2, storeFind st1 key = some e2 ∧ e2.usage_count = e.usage_count + 1) ∧
      (storeFind st key = none →
        ∃ e2, storeFind st1 key = some e2 ∧ e2.usage_count = 1) ∧
      (∀ k2 : String, k2 ≠ key → storeFind st1 k2 = storeFind st k2) := by
  unfold geocodeMiss
  rw [hp]
  simp only [hf]
  rw [if_neg (by simp : ¬ ((none : Option FailPoint) = some FailPoint.upsertQuery)),
    if_neg (by simp : ¬ ((none : Option FailPoint) = some FailPoint.mainCommit))]
  cases hfind : storeFind st key with
  | some e =>
    simp only
    have hek : e.address_key = key := storeFind_some_key _ _ _ hfind
    refine ⟨_, _, rfl, ?_, ?_, ?_⟩
    · intro e3 he3
      have he3e : e3 = e := (Option.some.inj he3).symm
      subst he3e
      exact ⟨_, storeFind_replaceFirst_self st _ e3 _ hfind hek, rfl⟩
    · intro hn
      cases hn
    · intro k2 hk2
      exact storeFind_replaceFirst_other st key k2 _ hk2 hek
  | none =>
    simp only
    refine ⟨_, _, rfl, ?_, ?_, ?_⟩
    · intro e3 he3
      cases he3
    · intro _
      exact ⟨_, storeFind_append_single st key _ hfind rfl, rfl⟩
    · intro k2 hk2
      exact storeFind_append_single_other st key k2 _ hk2 rfl


/-- Master case split for one healthy-session call: either it returns a
result and the entry under its own key has `usage_count` one more than
before (1 on creation), or it returns `None` and the entry under its key
keeps its `usage_count` (a new entry, created only by the
error-recording path, starts at the column default 1); entries under
other keys are never touched. -/
theorem callStep_master (st : Store) (c : Call) :
    (∃ res : GeocodeResult, ∃ st2 : Store, callStep st c = (some res, st2) ∧
      (∀ e : Entry, storeFind st (callKey c) = some e →
        ∃ e2, storeFind st2 (callKey c) = some e2 ∧ e2.usage_count = e.usage_count + 1) ∧
      (storeFind st (callKey c) = none →
        ∃ e2, storeFind st2 (callKey c) = some e2 ∧ e2.usage_count = 1) ∧
      (∀ k2 : String, k2 ≠ callKey c → storeFind st2 k2 = storeFind st k2)) ∨
    (∃ st2 : Store, callStep st c = (none, st2) ∧
      (∀ e : Entry, storeFind st (callKey c) = some e →
        ∃ e2, storeFind st2 (callKey c) = some e2 ∧ e2.usage_count = e.usage_count) ∧
      (storeFind st (callKey c) = none →
        storeFind st2 (callKey c) = none ∨
        ∃ e2, storeFind st2 (callKey c) = some e2 ∧ e2.usage_count = 1) ∧
      (∀ k2 : String, k2 ≠ callKey c → storeFind st2 k2 = storeFind st k2)) := by
  have hf : (callEnv c).fail = none := rfl
  -- does the call reach the miss/refresh tail?
  by_cases hmiss : c.force = true ∨
      ∀ e, storeFind st (callKey c) = some e → e.is_valid = false
  · -- provider-facing tail
    have hcore := geocodeCore_miss (callEnv c) st c.street c.city c.state c.zip c.force c.now hf hmiss
    rw [show normalize_address_key c.street c.city c.state c.zip = callKey c from rfl] at hcore
    cases hp : c.provider with
    | apiError msg =>
      refine Or.inr ⟨record_error (callEnv c) st (callKey c) c.street c.city c.state c.zip
        msg c.now, ?_, ?_, ?_, ?_⟩
      · show geocode_address (callEnv c) st c.street c.city c.state c.zip c.force c.now = _
        unfold geocode_address
        rw [hcore, geocodeMiss_apiError (callEnv c) st _ c.street c.city c.state c.zip msg c.now hp]
      · intro e he
        exact ⟨_, (record_error_uc (callEnv c) st _ c.street c.city c.state c.zip msg c.now hf).1 e he, rfl⟩
      · intro hnone
        exact Or.inr ((record_error_uc (callEnv c) st _ c.street c.city c.state c.zip msg c.now hf).2 hnone)
      · intro k2 hk2
        exact record_error_find_other (callEnv c) st _ c.street c.city c.state c.zip msg c.now k2 hk2
    | ok results =>
      cases results with
      | nil =>
        refine Or.inr ⟨record_error (callEnv c) st (callKey c) c.street c.city c.state c.zip
          "No results" c.now, ?_, ?_, ?_, ?_⟩
        · show geocode_address (callEnv c) st c.street c.city c.state c.zip c.force c.now = _
          unfold geocode_address
          rw [hcore, geocodeMiss_noResults (callEnv c) st _ c.street c.city c.state c.zip c.now hp]
        · intro e he
          exact ⟨_, (record_error_uc (callEnv c) st _ c.street c.city c.state c.zip "No results" c.now hf).1 e he, rfl⟩
        · intro hnone
          exact Or.inr ((record_error_uc (callEnv c) st _ c.street c.city c.state c.zip "No results" c.now hf).2 hnone)
        · intro k2 hk2
          exact record_error_find_other (callEnv c) st _ c.street c.city c.state c.zip "No results" c.now k2 hk2
      | cons cand rest =>
        obtain ⟨st1, res, heq, hupd, hnew, hoth⟩ :=
          geocodeMiss_upsert_uc (callEnv c) st (callKey c) c.street c.city c.state c.zip c.now cand rest hp hf
        refine Or.inl ⟨res, st1, ?_, hupd, hnew, hoth⟩
        show geocode_address (callEnv c) st c.street c.city c.state c.zip c.force c.now = _
        unfold geocode_address
        rw [hcore, heq]
    | malformed =>
      refine Or.inr ⟨st, ?_, fun e he => ⟨e, he, rfl⟩, fun hnone => Or.inl hnone, fun k2 _ => rfl⟩
      show geocode_address (callEnv c) st c.street c.city c.state c.zip c.force c.now = _
      unfold geocode_address
      rw [hcore]
      have : geocodeMiss (callEnv c) st (callKey c) c.street c.city c.state c.zip c.now =
          Except.error () := by
        unfold geocodeMiss
        rw [show (callEnv c).provider = c.provider from rfl, hp]
      rw [this]
    | otherError =>
      refine Or.inr ⟨st, ?_, fun e he => ⟨e, he, rfl⟩, fun hnone => Or.inl hnone, fun k2 _ => rfl⟩
      show geocode_address (callEnv c) st c.street c.city c.state c.zip c.force c.now = _
      unfold geocode_address
      rw [hcore]
      have : geocodeMiss (callEnv c) st (callKey c) c.street c.city c.state c.zip c.now =
          Except.error () := by
        unfold geocodeMiss
        rw [show (callEnv c).provider = c.provider from rfl, hp]
      rw [this]
  · -- cache hit
    push_neg at hmiss
    obtain ⟨hforce, e, he, hvalid⟩ := hmiss
    have hforce2 : c.force = false := by
      cases hcf : c.force with
      | true => exact absurd hcf hforce
      | false => rfl
    have hv : e.is_valid = true := by
      cases hval : e.is_valid with
      | true => rfl
      | false => exact absurd hval hvalid
    rw [Entry.is_valid, Bool.and_eq_true, Option.isSome_iff_exists, Option.isSome_iff_exists] at hv
    obtain ⟨⟨la, hla⟩, lo, hlo⟩ := hv
    have hek : e.address_key = callKey c := storeFind_some_key _ _ _ he
    have hcore := geocodeCore_hit (callEnv c) st c.street c.city c.state c.zip c.now e la lo hf he hla hlo
    refine Or.inl ⟨{ lat := la, lng := lo, accuracy := e.accuracy, confidence := e.confidence,
                     formatted_address := e.formatted_address, place_id := e.place_id,
                     cached := true },
      replaceFirst st (callKey c)
        { e with usage_count := e.usage_count + 1, last_used_at := some c.now }, ?_, ?_, ?_, ?_⟩
    · show geocode_address (callEnv c) st c.street c.city c.state c.zip c.force c.now = _
      unfold geocode_address
      rw [hforce2, hcore]
      rfl
    · intro e3 he3
      have he3e : e3 = e := by
        rw [he] at he3
        exact (Option.some.inj he3).symm
      subst he3e
      exact ⟨_, storeFind_replaceFirst_self st _ e3 _ he hek, rfl⟩
    · intro hnone
      rw [he] at hnone
      cases hnone
    · intro k2 hk2
      exact storeFind_replaceFirst_other st _ k2 _ hk2 hek


/-- The per-key bookkeeping invariant: the fold state carries the store,
the number of successful lookups of `k` so far, and whether the entry
for `k` was first created by a failed call; an absent entry means no
successful lookups, a present entry holds `usage_count` = successes plus
one iff it was created by the error path (the store's creation
default). -/
def C6Inv (k : String) (acc : Store × Nat × Bool) : Prop :=
  (storeFind acc.1 k = none → acc.2.1 = 0 ∧ acc.2.2 = false) ∧
  (∀ e : Entry, storeFind acc.1 k = some e →
    e.usage_count = acc.2.1 + (if acc.2.2 = true then 1 else 0))

theorem C6Inv_step (k : String) (acc : Store × Nat × Bool) (c : Call)
    (h : C6Inv k acc) :
    C6Inv k ((callStep acc.1 c).2,
      acc.2.1 + (if (callStep acc.1 c).1.isSome = true ∧ callKey c = k then 1 else 0),
      acc.2.2 || ((storeFind acc.1 k).isNone && (storeFind (callStep acc.1 c).2 k).isSome &&
        (callStep acc.1 c).1.isNone)) := by
  obtain ⟨hnoneInv, hsomeInv⟩ := h
  unfold C6Inv
  dsimp only
  by_cases hkc : callKey c = k
  · subst hkc
    rcases callStep_master acc.1 c with
      ⟨res, st2, heq, hupd, hnew, hoth⟩ | ⟨st2, heq, hupd, hnew, hoth⟩
    · -- successful call for this key
      rw [heq]
      simp only [Option.isSome_some, Option.isNone_some, Bool.false_and, Bool.and_false,
        Bool.or_false, true_and, if_true]
      constructor
      · intro hn2
        cases hfind : storeFind acc.1 (callKey c) with
        | some e =>
          obtain ⟨e2, he2, _⟩ := hupd e hfind
          rw [he2] at hn2
          cases hn2
        | none =>
          obtain ⟨e2, he2, _⟩ := hnew hfind
          rw [he2] at hn2
          cases hn2
      · intro e2 he2
        cases hfind : storeFind acc.1 (callKey c) with
        | some e =>
          obtain ⟨e3, he3, huc⟩ := hupd e hfind
          rw [he3] at he2
          cases he2
          rw [huc, hsomeInv e hfind]
          omega
        | none =>
          obtain ⟨e3, he3, huc⟩ := hnew hfind
          rw [he3] at he2
          cases he2
          obtain ⟨hn0, hb0⟩ := hnoneInv hfind
          rw [huc, hn0, hb0]
          simp
    · -- call returned None
      rw [heq]
      cases hfind : storeFind acc.1 (callKey c) with
      | some e =>
        obtain ⟨e2, he2, huc⟩ := hupd e hfind
        refine ⟨fun hn2 => ?_, fun e3 he3 => ?_⟩
        · simp [he2] at hn2
        · simp only [he2, Option.some.injEq] at he3
          subst he3
          rw [huc, hsomeInv e hfind]
          simp [he2]
      | none =>
        obtain ⟨hn0, hb0⟩ := hnoneInv hfind
        rcases hnew hfind with h2none | ⟨e2, he2, huc⟩
        · refine ⟨fun _ => ?_, fun e3 he3 => ?_⟩
          · simp [h2none, hn0, hb0]
          · simp [h2none] at he3
        · refine ⟨fun hn2 => ?_, fun e3 he3 => ?_⟩
          · simp [he2] at hn2
          · simp only [he2, Option.some.injEq] at he3
            subst he3
            rw [huc]
            simp [he2, hn0, hb0]
  · -- a call for a different key never touches this entry
    have hoth : storeFind (callStep acc.1 c).2 k = storeFind acc.1 k := by
      rcases callStep_master acc.1 c with
        ⟨res, st2, heq, _, _, hoth⟩ | ⟨st2, heq, _, _, hoth⟩ <;>
        · rw [heq]
          exact hoth k (fun hk => hkc hk.symm)
    have hif : (if (callStep acc.1 c).1.isSome = true ∧ callKey c = k then 1 else 0) = 0 := by
      rw [if_neg]
      intro hc
      exact hkc hc.2
    rw [hoth, hif]
    constructor
    · intro hn2
      obtain ⟨hn0, hb0⟩ := hnoneInv hn2
      refine ⟨by omega, ?_⟩
      rw [hn2, hb0]
      simp
    · intro e3 he3
      rw [he3]
      simp only [Option.isNone_some, Bool.false_and, Bool.or_false, Nat.add_zero]
      exact hsomeInv e3 he3

theorem C6_foldl_inv (k : String) :
    ∀ (cs : List Call) (acc : Store × Nat × Bool), C6Inv k acc →
      C6Inv k (cs.foldl (fun acc c =>
        ((callStep acc.1 c).2,
         acc.2.1 + (if (callStep acc.1 c).1.isSome = true ∧ callKey c = k then 1 else 0),
         acc.2.2 || ((storeFind acc.1 k).isNone && (storeFind (callStep acc.1 c).2 k).isSome &&
           (callStep acc.1 c).1.isNone))) acc) := by
  intro cs
  induction cs with
  | nil => intro acc h; exact h
  | cons c t ih => intro acc h; exact ih _ (C6Inv_step k acc c h)

theorem C6_trace_inv (k : String) (cs : List Call) : C6Inv k (traceStats k cs) :=
  C6_foldl_inv k cs ([], 0, false)
    ⟨fun _ => ⟨rfl, rfl⟩, fun e he => by cases he⟩

theorem runTrace_append_single (cs : List Call) (c : Call) :
    runTrace (cs ++ [c]) = (callStep (runTrace cs) c).2 := by
  unfold runTrace
  rw [List.foldl_append]
  rfl


theorem ucOf_some (st : Store) (k : String) (e : Entry) (h : storeFind st k = some e) :
    ucOf st k = e.usage_count := by
  unfold ucOf
  rw [h]

theorem ucOf_none (st : Store) (k : String) (h : storeFind st k = none) :
    ucOf st k = 0 := by
  unfold ucOf
  rw [h]

/-- C6 (amended): over every sequence of healthy-session calls starting
from the empty cache and for every key, the entry's `usage_count` equals
the number of successful lookups of that key **plus one when the entry
was first created by the error-recording path** (whose `INSERT` takes the
column default `usage_count = 1`); `usage_count` is monotonically
non-decreasing, is incremented by exactly 1 by each successful lookup
(cache hit or successful fresh geocode) of the key, and is never changed
on an existing entry by a call that returns the failure marker (pure
error recording). -/
theorem C6_usage_accounting_amended (cs : List Call) (k : String) :
    (∀ e : Entry, storeFind (runTrace cs) k = some e →
      e.usage_count = succCountKey k cs + (if errOriginKey k cs = true then 1 else 0)) ∧
    (storeFind (runTrace cs) k = none →
      succCountKey k cs = 0 ∧ errOriginKey k cs = false) ∧
    (∀ c : Call, ucOf (runTrace cs) k ≤ ucOf (runTrace (cs ++ [c])) k) ∧
    (∀ c : Call, callKey c = k → ((callStep (runTrace cs) c).1).isSome = true →
      ucOf (runTrace (cs ++ [c])) k = ucOf (runTrace cs) k + 1) ∧
    (∀ c : Call, ∀ e : Entry, storeFind (runTrace cs) k = some e →
      (callStep (runTrace cs) c).1 = none →
      ∃ e2 : Entry, storeFind (runTrace (cs ++ [c])) k = some e2 ∧
        e2.usage_count = e.usage_count) := by
  obtain ⟨hnone, hsome⟩ := C6_trace_inv k cs
  rw [traceStats_store] at hnone hsome
  refine ⟨hsome, hnone, fun c => ?_, fun c hkc hsome2 => ?_, fun c e he hnone2 => ?_⟩
  · rw [runTrace_append_single]
    rcases callStep_master (runTrace cs) c with
      ⟨res, st2, heq, hupd, hnew, hoth⟩ | ⟨st2, heq, hupd, hnew, hoth⟩ <;>
      have h2 : (callStep (runTrace cs) c).2 = st2 := by rw [heq]
    · rw [h2]
      by_cases hkc : callKey c = k
      · subst hkc
        cases hfind : storeFind (runTrace cs) (callKey c) with
        | some e =>
          obtain ⟨e2, he2, huc⟩ := hupd e hfind
          rw [ucOf_some _ _ _ hfind, ucOf_some _ _ _ he2, huc]
          omega
        | none =>
          rw [ucOf_none _ _ hfind]
          exact Nat.zero_le _
      · have hne : k ≠ callKey c := fun h => hkc h.symm
        have hfr : storeFind st2 k = storeFind (runTrace cs) k := hoth k hne
        unfold ucOf
        rw [hfr]
    · rw [h2]
      by_cases hkc : callKey c = k
      · subst hkc
        cases hfind : storeFind (runTrace cs) (callKey c) with
        | some e =>
          obtain ⟨e2, he2, huc⟩ := hupd e hfind
          rw [ucOf_some _ _ _ hfind, ucOf_some _ _ _ he2, huc]
        | none =>
          rw [ucOf_none _ _ hfind]
          exact Nat.zero_le _
      · have hne : k ≠ callKey c := fun h => hkc h.symm
        have hfr : storeFind st2 k = storeFind (runTrace cs) k := hoth k hne
        unfold ucOf
        rw [hfr]
  · rw [runTrace_append_single]
    rcases callStep_master (runTrace cs) c with
      ⟨res, st2, heq, hupd, hnew, hoth⟩ | ⟨st2, heq, hupd, hnew, hoth⟩
    · have h2 : (callStep (runTrace cs) c).2 = st2 := by rw [heq]
      rw [h2]
      subst hkc
      cases hfind : storeFind (runTrace cs) (callKey c) with
      | some e =>
        obtain ⟨e2, he2, huc⟩ := hupd e hfind
        rw [ucOf_some _ _ _ hfind, ucOf_some _ _ _ he2, huc]
      | none =>
        obtain ⟨e2, he2, huc⟩ := hnew hfind
        rw [ucOf_none _ _ hfind, ucOf_some _ _ _ he2, huc]
    · rw [heq] at hsome2
      simp at hsome2
  · rw [runTrace_append_single]
    rcases callStep_master (runTrace cs) c with
      ⟨res, st2, heq, hupd, hnew, hoth⟩ | ⟨st2, heq, hupd, hnew, hoth⟩
    · rw [heq] at hnone2
      simp at hnone2
    · have h2 : (callStep (runTrace cs) c).2 = st2 := by rw [heq]
      rw [h2]
      by_cases hkc : callKey c = k
      · subst hkc
        exact hupd e he
      · have hne : k ≠ callKey c := fun h => hkc h.symm
        exact ⟨e, by rw [hoth k hne]; exact he, rfl⟩

/-- One failing call: provider raises a handled API error. -/
def c6Call : Call :=
  ⟨"E St", "T", "WA", "9", false, ProviderOutcome.apiError "boom", 4⟩

/-- The entry the error-recording path creates for `c6Call`. -/
def c6Entry : Entry :=
  { address_key := "E ST|T|WA|9"
    street := "E St"
    city := "T"
    state := "WA"
    zip_code := "9"
    latitude := none
    longitude := none
    formatted_address := none
    place_id := none
    accuracy := none
    location_type := none
    confidence := none
    geocode_provider := "google_maps"
    geocoded_at := none
    api_response_json := none
    error_message := some "boom"
    retry_count := 1
    last_error_at := some 4
    usage_count := 1
    last_used_at := none
    created_at := 4
    updated_at := none }

/-- C6 counterexample: after a single failing call on the empty store
the created entry carries `usage_count = 1` (the column creation
default) while the number of successful lookups of its key is 0, so the
claimed equality "usageCount always equals the number of successful
lookups" is false on the code. -/
theorem C6_counterexample :
    storeFind (runTrace [c6Call]) (callKey c6Call) = some c6Entry ∧
    ¬ (c6Entry.usage_count = succCountKey (callKey c6Call) [c6Call]) :=
  ⟨by decide, by decide⟩

/-- Witness for C6 (amended) on the one-call failing trace: the entry
exists, was error-created, and `1 = 0 + 1`. -/
theorem C6_usage_accounting_amended_witness :
    (storeFind (runTrace [c6Call]) (callKey c6Call) = some c6Entry) ∧
    c6Entry.usage_count = succCountKey (callKey c6Call) [c6Call] +
      (if errOriginKey (callKey c6Call) [c6Call] = true then 1 else 0) :=
  ⟨by decide,
    (C6_usage_accounting_amended [c6Call] (callKey c6Call)).1 c6Entry (by decide)⟩


/-! ### C8: normalization idempotence

`normalize_components` returns the four components as they stand after
the per-component transformations, i.e. the pieces the pipe-joined key
is built from. -/

def normalize_components (street city state zip : String) :
    String × String × String × String :=
  ((normStreet street.toList).asString, (normCity city.toList).asString,
   (normState state.toList).asString, (normZip zip.toList).asString)

/-- C8 counterexample: for the street `"100 APT 2 APT 3"` one
normalization strips only the rightmost unit designator (the anchored
pattern matches at the leftmost position whose match reaches the end of
the string), leaving `"100 APT 2"`; re-normalizing the normalized
components strips again, so `normalize(normalize_components(x)) ≠
normalize(x)`. -/
theorem C8_counterexample :
    normalize_components "100 APT 2 APT 3" "X" "Y" "1" = ("100 APT 2", "X", "Y", "1") ∧
    normalize_address_key "100 APT 2" "X" "Y" "1" = "100|X|Y|1" ∧
    normalize_address_key "100 APT 2 APT 3" "X" "Y" "1" = "100 APT 2|X|Y|1" ∧
    ¬ (normalize_address_key "100 APT 2" "X" "Y" "1" =
        normalize_address_key "100 APT 2 APT 3" "X" "Y" "1") :=
  ⟨by decide, by decide, by decide, by decide⟩


/-! #### Upper-case fixedness

Everything the street/city pipeline outputs is a fixed point of the
ASCII upper-casing: original characters have been upper-cased (and
`pyUpperC` is idempotent), the abbreviation replacements are upper-case
letters, and collapsing only inserts spaces. -/

theorem pyUpperC_idem (c : Char) : pyUpperC (pyUpperC c) = pyUpperC c := by
  by_cases h : 97 ≤ c.toNat ∧ c.toNat ≤ 122
  · have hout : pyUpperC c = Char.ofNat (c.toNat - 32) := by
      unfold pyUpperC
      rw [if_pos h]
    rw [hout]
    obtain ⟨h1, h2⟩ := h
    interval_cases hv : c.toNat <;> decide
  · have hout : pyUpperC c = c := by
      unfold pyUpperC
      rw [if_neg h]
    rw [hout, hout]

/-- The characters on which the ASCII upper-casing is the identity. -/
def UpFixed (l : List Char) : Prop := ∀ c ∈ l, pyUpperC c = c

theorem UpFixed_pyUpper (s : List Char) : UpFixed (pyUpper s) := by
  intro c hc
  obtain ⟨a, _, ha⟩ := List.mem_map.mp hc
  rw [← ha]
  exact pyUpperC_idem a

theorem pyUpper_of_UpFixed (l : List Char) (h : UpFixed l) : pyUpper l = l := by
  unfold pyUpper
  exact List.map_congr_left h |>.trans (List.map_id l)

theorem UpFixed_sub (l m : List Char) (hsub : ∀ c ∈ m, c ∈ l) (h : UpFixed l) :
    UpFixed m := fun c hc => h c (hsub c hc)

theorem mem_pyStrip (s : List Char) (c : Char) (h : c ∈ pyStrip s) : c ∈ s := by
  unfold pyStrip at h
  rw [List.mem_reverse] at h
  have h2 := (List.dropWhile_sublist isPyWS).mem h
  rw [List.mem_reverse] at h2
  exact (List.dropWhile_sublist isPyWS).mem h2

theorem mem_unitSub (s : List Char) (c : Char) (h : c ∈ unitSub s) : c ∈ s := by
  unfold unitSub at h
  cases hfind : (List.range (s.length + 1)).find? (fun i => unitMatchAt (s.drop i)) with
  | some i =>
    rw [hfind] at h
    exact List.take_subset i s h
  | none =>
    rw [hfind] at h
    exact h

theorem mem_pySplit (s : List Char) :
    ∀ t ∈ pySplit s, ∀ c ∈ t, c ∈ s := by
  have H : ∀ n : Nat, ∀ s : List Char, s.length < n → ∀ t ∈ pySplit s, ∀ c ∈ t, c ∈ s := by
    intro n
    induction n with
    | zero => intro s h; omega
    | succ n ih =>
      intro s hlen t ht c hc
      rw [pySplit_eq] at ht
      by_cases hdw : s.dropWhile isPyWS = []
      · rw [if_pos hdw] at ht
        cases ht
      · rw [if_neg hdw] at ht
        cases ht with
        | head =>
          exact (List.dropWhile_sublist isPyWS).mem
            ((List.takeWhile_sublist _).mem hc)
        | tail _ ht2 =>
          have hlt := pySplit_drop_lt s hdw
          have := ih ((s.dropWhile isPyWS).dropWhile (fun c => !isPyWS c)) (by omega) t ht2 c hc
          exact (List.dropWhile_sublist isPyWS).mem
            ((List.dropWhile_sublist _).mem this)
  exact H (s.length + 1) s (Nat.lt_succ_self _)

theorem mem_joinSp (L : List (List Char)) (c : Char) (h : c ∈ joinSp L) :
    (∃ t ∈ L, c ∈ t) ∨ c = ' ' := by
  induction L with
  | nil => cases h
  | cons t ts ih =>
    cases ts with
    | nil =>
      exact Or.inl ⟨t, List.mem_cons_self .., h⟩
    | cons u us =>
      rw [show joinSp (t :: u :: us) = t ++ ' ' :: joinSp (u :: us) from rfl] at h
      rcases List.mem_append.mp h with h1 | h1
      · exact Or.inl ⟨t, List.mem_cons_self .., h1⟩
      · rcases List.mem_cons.mp h1 with h2 | h2
        · exact Or.inr h2
        · rcases ih h2 with ⟨t2, ht2, hc2⟩ | h3
          · exact Or.inl ⟨t2, List.mem_cons_of_mem _ ht2, hc2⟩
          · exact Or.inr h3

theorem mem_collapseWS (s : List Char) (c : Char) (h : c ∈ collapseWS s) :
    c ∈ s ∨ c = ' ' := by
  rcases mem_joinSp (pySplit s) c h with ⟨t, ht, hc⟩ | hsp
  · exact Or.inl (mem_pySplit s t ht c hc)
  · exact Or.inr hsp

theorem mem_subWWr (p r : List Char) (hp : p ≠ []) :
    ∀ s : List Char, ∀ bd : Bool, ∀ c : Char, c ∈ subWWr p r bd s → c ∈ s ∨ c ∈ r := by
  have H : ∀ n : Nat, ∀ s : List Char, s.length < n → ∀ bd : Bool, ∀ c : Char,
      c ∈ subWWr p r bd s → c ∈ s ∨ c ∈ r := by
    intro n
    induction n with
    | zero => intro s h; omega
    | succ n ih =>
      intro s hlen bd c hc
      rw [subWWr_eq p r hp] at hc
      by_cases hm : (bd && wwMatch p s) = true
      · rw [if_pos hm] at hc
        rcases List.mem_append.mp hc with h1 | h1
        · exact Or.inr h1
        · have hpl : 0 < p.length := List.length_pos.mpr hp
          have hple : p.length ≤ s.length := by
            simp only [Bool.and_eq_true, wwMatch] at hm
            exact isPrefList_length_le p s hm.2.1
          rcases ih (s.drop p.length) (by simp only [List.length_drop]; omega) false c h1 with
            h2 | h2
          · exact Or.inl (List.drop_subset _ s h2)
          · exact Or.inr h2
      · rw [if_neg hm] at hc
        cases s with
        | nil => cases hc
        | cons a t =>
          rcases List.mem_cons.mp hc with h1 | h1
          · exact Or.inl (h1 ▸ List.mem_cons_self ..)
          · simp only [List.length_cons] at hlen
            rcases ih t (by omega) (!isWordC a) c h1 with h2 | h2
            · exact Or.inl (List.mem_cons_of_mem _ h2)
            · exact Or.inr h2
  exact fun s => H (s.length + 1) s (Nat.lt_succ_self _)

theorem UpFixed_abbrevs : ∀ pr ∈ abbrevTable, UpFixed pr.2 ∧ pr.1 ≠ [] := by
  intro pr hpr
  fin_cases hpr <;>
    exact ⟨by intro c hc; fin_cases hc <;> decide, by decide⟩

theorem UpFixed_applyAbbrevs (s : List Char) (h : UpFixed s) :
    UpFixed (applyAbbrevs s) := by
  unfold applyAbbrevs
  have H : ∀ L : List (List Char × List Char), (∀ pr ∈ L, UpFixed pr.2 ∧ pr.1 ≠ []) →
      ∀ z : List Char, UpFixed z →
      UpFixed (L.foldl (fun acc pr => subWW pr.1 pr.2 acc) z) := by
    intro L
    induction L with
    | nil => intro _ z hz; exact hz
    | cons pr L ih =>
      intro hL z hz
      refine ih (fun q hq => hL q (List.mem_cons_of_mem _ hq)) _ ?_
      obtain ⟨hr, hpne⟩ := hL pr (List.mem_cons_self ..)
      show UpFixed (subWW pr.1 pr.2 z)
      unfold subWW
      rw [if_neg hpne]
      intro c hc
      rcases mem_subWWr pr.1 pr.2 hpne z true c hc with h1 | h1
      · exact hz c h1
      · exact hr c h1
  exact H abbrevTable UpFixed_abbrevs s h

/-- The street pipeline output is upper-case fixed. -/
theorem UpFixed_normStreet (s : List Char) : UpFixed (normStreet s) := by
  unfold normStreet
  intro c hc
  rcases mem_collapseWS _ c hc with h1 | h1
  · exact UpFixed_applyAbbrevs _
      (UpFixed_sub _ _ (fun d hd => mem_pyStrip _ d (mem_unitSub _ d hd))
        (UpFixed_pyUpper s)) c h1
  · rw [h1]
    decide

theorem UpFixed_normCity (s : List Char) : UpFixed (normCity s) := by
  unfold normCity
  intro c hc
  rcases mem_collapseWS _ c hc with h1 | h1
  · exact UpFixed_pyUpper s c (mem_pyStrip _ c h1)
  · rw [h1]
    decide

theorem UpFixed_normState (s : List Char) : UpFixed (normState s) := by
  unfold normState
  intro c hc
  exact UpFixed_pyUpper s c (mem_pyStrip _ c hc)


/-! #### Tokens, joining, and stripping

`pySplit` produces nonempty whitespace-free tokens; joining them with
single spaces yields a string with no edge whitespace, so stripping is
the identity on it and re-splitting recovers exactly the tokens — the
whitespace-collapsing step is idempotent. -/

def GoodToks (L : List (List Char)) : Prop :=
  ∀ t ∈ L, t ≠ [] ∧ ∀ c ∈ t, isPyWS c = false

theorem takeWhile_eq_self_of_all (p : Char → Bool) (l : List Char)
    (h : ∀ c ∈ l, p c = true) : l.takeWhile p = l := by
  induction l with
  | nil => rfl
  | cons a t ih =>
    rw [List.takeWhile_cons, if_pos (h a (List.mem_cons_self ..))]
    rw [ih (fun c hc => h c (List.mem_cons_of_mem _ hc))]

theorem dropWhile_eq_nil_of_all (p : Char → Bool) (l : List Char)
    (h : ∀ c ∈ l, p c = true) : l.dropWhile p = [] := by
  induction l with
  | nil => rfl
  | cons a t ih =>
    rw [List.dropWhile_cons, if_pos (h a (List.mem_cons_self ..))]
    exact ih (fun c hc => h c (List.mem_cons_of_mem _ hc))

theorem takeWhile_append_all (p : Char → Bool) (l1 l2 : List Char)
    (h : ∀ c ∈ l1, p c = true) :
    (l1 ++ l2).takeWhile p = l1 ++ l2.takeWhile p := by
  induction l1 with
  | nil => rfl
  | cons a t ih =>
    rw [List.cons_append, List.takeWhile_cons, if_pos (h a (List.mem_cons_self ..))]
    rw [ih (fun c hc => h c (List.mem_cons_of_mem _ hc))]
    rfl

theorem dropWhile_append_all (p : Char → Bool) (l1 l2 : List Char)
    (h : ∀ c ∈ l1, p c = true) :
    (l1 ++ l2).dropWhile p = l2.dropWhile p := by
  induction l1 with
  | nil => rfl
  | cons a t ih =>
    rw [List.cons_append, List.dropWhile_cons, if_pos (h a (List.mem_cons_self ..))]
    exact ih (fun c hc => h c (List.mem_cons_of_mem _ hc))

theorem dropWhile_eq_self_of_head (p : Char → Bool) (l : List Char)
    (h : l = [] ∨ ∃ a t, l = a :: t ∧ p a = false) : l.dropWhile p = l := by
  rcases h with h | ⟨a, t, hl, ha⟩
  · rw [h]
    rfl
  · rw [hl, List.dropWhile_cons, ha]
    simp

theorem dropWhile_getLast (p : Char → Bool) (l : List Char) :
    ∀ hne : l.dropWhile p ≠ [], ∀ hl : l ≠ [],
    (l.dropWhile p).getLast hne = l.getLast hl := by
  induction l with
  | nil => intro hne _; simp at hne
  | cons a t ih =>
    intro hne hl
    by_cases ha : p a
    · have hd : (a :: t).dropWhile p = t.dropWhile p := by
        rw [List.dropWhile_cons, if_pos ha]
      have htne : t ≠ [] := by
        intro ht
        subst ht
        exact hne (by rw [List.dropWhile_cons, if_pos ha]; rfl)
      rw [show ((a :: t).dropWhile p).getLast hne =
          (t.dropWhile p).getLast (by rw [← hd]; exact hne) from by congr 1,
        ih _ htne, List.getLast_cons htne]
    · have hd : (a :: t).dropWhile p = a :: t := by
        rw [List.dropWhile_cons, if_neg ha]
      congr 1

theorem pySplit_good (s : List Char) : GoodToks (pySplit s) := by
  have H : ∀ n : Nat, ∀ s : List Char, s.length < n → GoodToks (pySplit s) := by
    intro n
    induction n with
    | zero => intro s h; omega
    | succ n ih =>
      intro s hlen t ht
      rw [pySplit_eq] at ht
      by_cases hdw : s.dropWhile isPyWS = []
      · rw [if_pos hdw] at ht
        cases ht
      · rw [if_neg hdw] at ht
        cases ht with
        | head =>
          constructor
          · cases hu : s.dropWhile isPyWS with
            | nil => exact absurd hu hdw
            | cons a u =>
              have ha : isPyWS a = false := by
                have := dropWhile_head_false isPyWS s (by simp [hu])
                simpa [hu] using this
              rw [List.takeWhile_cons, if_pos (by simp [ha])]
              simp
          · intro c hc
            have := List.mem_takeWhile_imp hc
            simpa using this
        | tail _ ht2 =>
          have hlt := pySplit_drop_lt s hdw
          exact ih _ (by omega) t ht2
  exact H (s.length + 1) s (Nat.lt_succ_self _)

theorem joinSp_ne_nil (L : List (List Char)) (hL : GoodToks L) (hne : L ≠ []) :
    joinSp L ≠ [] := by
  cases L with
  | nil => exact absurd rfl hne
  | cons t ts =>
    have ht := (hL t (List.mem_cons_self ..)).1
    cases ts with
    | nil => exact ht
    | cons u us =>
      show t ++ ' ' :: joinSp (u :: us) ≠ []
      simp

theorem joinSp_head (L : List (List Char)) (hL : GoodToks L) :
    ∀ hne : joinSp L ≠ [], isPyWS ((joinSp L).head hne) = false := by
  cases L with
  | nil => intro hne; simp [joinSp] at hne
  | cons t ts =>
    intro hne
    obtain ⟨htne, hta⟩ := hL t (List.mem_cons_self ..)
    cases ts with
    | nil =>
      exact hta _ (List.head_mem htne)
    | cons u us =>
      have hshape : joinSp (t :: u :: us) = t ++ ' ' :: joinSp (u :: us) := rfl
      have h2 : (joinSp (t :: u :: us)).head hne = t.head htne := by
        rw [show (joinSp (t :: u :: us)).head hne =
          (t ++ ' ' :: joinSp (u :: us)).head (by rw [← hshape]; exact hne) from by congr 1]
        exact List.head_append_of_ne_nil htne
      rw [h2]
      exact hta _ (List.head_mem htne)

theorem joinSp_getLast (L : List (List Char)) (hL : GoodToks L) :
    ∀ hne : joinSp L ≠ [], isPyWS ((joinSp L).getLast hne) = false := by
  induction L with
  | nil => intro hne; simp [joinSp] at hne
  | cons t ts ih =>
    intro hne
    obtain ⟨htne, hta⟩ := hL t (List.mem_cons_self ..)
    cases ts with
    | nil =>
      exact hta _ (List.getLast_mem hne)
    | cons u us =>
      have hL2 : GoodToks (u :: us) := fun q hq => hL q (List.mem_cons_of_mem _ hq)
      have hjne : joinSp (u :: us) ≠ [] := joinSp_ne_nil _ hL2 (by simp)
      have hshape : joinSp (t :: u :: us) = t ++ ' ' :: joinSp (u :: us) := rfl
      have h2 : (joinSp (t :: u :: us)).getLast hne =
          (' ' :: joinSp (u :: us)).getLast (by simp) := by
        rw [show (joinSp (t :: u :: us)).getLast hne =
            (t ++ ' ' :: joinSp (u :: us)).getLast (by rw [← hshape]; exact hne) from by congr 1]
        exact List.getLast_append_of_ne_nil (by simp)
      rw [h2, List.getLast_cons hjne]
      exact ih hL2 hjne

theorem pyStrip_fix (l : List Char)
    (hh : ∀ hne : l ≠ [], isPyWS (l.head hne) = false)
    (hg : ∀ hne : l ≠ [], isPyWS (l.getLast hne) = false) :
    pyStrip l = l := by
  by_cases hl : l = []
  · subst hl
    rfl
  · have hd1 : l.dropWhile isPyWS = l := by
      apply dropWhile_eq_self_of_head
      cases l with
      | nil => exact Or.inl rfl
      | cons a t =>
        refine Or.inr ⟨a, t, rfl, ?_⟩
        simpa using hh (by simp)
    have hrne : l.reverse ≠ [] := by simpa using hl
    have hd2 : l.reverse.dropWhile isPyWS = l.reverse := by
      apply dropWhile_eq_self_of_head
      cases hr : l.reverse with
      | nil => exact absurd hr hrne
      | cons b u =>
        refine Or.inr ⟨b, u, rfl, ?_⟩
        have hb : l.reverse.head hrne = b := by
          have h1 : l.reverse.head? = some b := by rw [hr]; rfl
          have h2 : l.reverse.head? = some (l.reverse.head hrne) := List.head?_eq_head hrne
          rw [h2] at h1
          exact Option.some.inj h1
        have hhead : l.reverse.head hrne = l.getLast hl := List.head_reverse ..
        rw [← hb, hhead]
        exact hg hl
    unfold pyStrip
    rw [hd1, hd2, List.reverse_reverse]

theorem pyStrip_collapseWS (s : List Char) : pyStrip (collapseWS s) = collapseWS s := by
  apply pyStrip_fix
  · exact fun hne => joinSp_head (pySplit s) (pySplit_good s) hne
  · exact fun hne => joinSp_getLast (pySplit s) (pySplit_good s) hne

theorem pySplit_congr (s u : List Char) (h : s.dropWhile isPyWS = u.dropWhile isPyWS) :
    pySplit s = pySplit u := by
  rw [pySplit_eq s, pySplit_eq u, h]

theorem pySplit_joinSp (L : List (List Char)) (hL : GoodToks L) :
    pySplit (joinSp L) = L := by
  induction L with
  | nil =>
    rw [show joinSp [] = [] from rfl, pySplit_eq]
    simp
  | cons t ts ih =>
    obtain ⟨htne, hta⟩ := hL t (List.mem_cons_self ..)
    have hta2 : ∀ c ∈ t, (fun c => !isPyWS c) c = true := by
      intro c hc
      simp [hta c hc]
    cases ts with
    | nil =>
      rw [show joinSp [t] = t from rfl, pySplit_eq]
      have hd : t.dropWhile isPyWS = t := by
        apply dropWhile_eq_self_of_head
        cases ht : t with
        | nil => exact Or.inl rfl
        | cons a t2 =>
          refine Or.inr ⟨a, t2, rfl, ?_⟩
          exact hta a (by rw [ht]; exact List.mem_cons_self ..)
      rw [hd, if_neg htne, takeWhile_eq_self_of_all _ _ hta2,
        dropWhile_eq_nil_of_all _ _ hta2]
      rw [pySplit_eq]
      simp
    | cons u us =>
      have hL2 : GoodToks (u :: us) := fun q hq => hL q (List.mem_cons_of_mem _ hq)
      have hshape : joinSp (t :: u :: us) = t ++ ' ' :: joinSp (u :: us) := rfl
      rw [hshape, pySplit_eq]
      have hd : (t ++ ' ' :: joinSp (u :: us)).dropWhile isPyWS =
          t ++ ' ' :: joinSp (u :: us) := by
        apply dropWhile_eq_self_of_head
        cases ht : t with
        | nil => exact absurd ht htne
        | cons a t2 =>
          refine Or.inr ⟨a, t2 ++ ' ' :: joinSp (u :: us), by simp, ?_⟩
          exact hta a (by rw [ht]; exact List.mem_cons_self ..)
      rw [hd]
      rw [if_neg (by simp [htne])]
      rw [takeWhile_append_all _ _ _ hta2]
      rw [show (' ' :: joinSp (u :: us)).takeWhile (fun c => !isPyWS c) = [] from by
        rw [List.takeWhile_cons]; simp [isPyWS]]
      rw [dropWhile_append_all _ _ _ hta2]
      rw [show (' ' :: joinSp (u :: us)).dropWhile (fun c => !isPyWS c) =
        ' ' :: joinSp (u :: us) from by
        rw [List.dropWhile_cons]; simp [isPyWS]]
      rw [List.append_nil]
      have hcongr : pySplit (' ' :: joinSp (u :: us)) = pySplit (joinSp (u :: us)) := by
        apply pySplit_congr
        rw [List.dropWhile_cons]
        simp [isPyWS]
      rw [hcongr, ih hL2]

theorem collapseWS_idem (s : List Char) : collapseWS (collapseWS s) = collapseWS s := by
  show joinSp (pySplit (joinSp (pySplit s))) = joinSp (pySplit s)
  rw [pySplit_joinSp (pySplit s) (pySplit_good s)]


/-! #### Maximal word runs

A whole-word occurrence of an all-word-character pattern is exactly a
maximal run of `\w` characters equal to the pattern, so the abbreviation
pass acts on the list of maximal word runs (`wordChunks`).  Whitespace
collapsing rewrites only non-word characters and never deletes the
separation between two word runs, hence preserves `wordChunks`. -/

def wordChunksF : Nat → List Char → List (List Char)
  | 0, _ => []
  | n + 1, s =>
    if s.dropWhile (fun c => !isWordC c) = [] then []
    else
      (s.dropWhile (fun c => !isWordC c)).takeWhile isWordC ::
        wordChunksF n ((s.dropWhile (fun c => !isWordC c)).dropWhile isWordC)

/-- The maximal runs of `\w` characters of a string, in order. -/
def wordChunks (s : List Char) : List (List Char) := wordChunksF (s.length + 1) s

theorem wordChunks_drop_lt (s : List Char) (h : s.dropWhile (fun c => !isWordC c) ≠ []) :
    ((s.dropWhile (fun c => !isWordC c)).dropWhile isWordC).length < s.length := by
  have h1 : (s.dropWhile (fun c => !isWordC c)).length ≤ s.length := dropWhile_length_le ..
  have h2 : ((s.dropWhile (fun c => !isWordC c)).dropWhile isWordC).length <
      (s.dropWhile (fun c => !isWordC c)).length := by
    cases hs : s.dropWhile (fun c => !isWordC c) with
    | nil => exact absurd hs h
    | cons a t =>
      have ha : isWordC a = true := by
        have := dropWhile_head_false (fun c => !isWordC c) s (by simp [hs])
        simpa [hs] using this
      simp only [List.dropWhile_cons, ha, if_true, List.length_cons]
      exact Nat.lt_succ_of_le (dropWhile_length_le ..)
  exact Nat.lt_of_lt_of_le h2 h1

theorem wordChunksF_fuel : ∀ n m : Nat, ∀ s : List Char, s.length < n → s.length < m →
    wordChunksF n s = wordChunksF m s := by
  intro n
  induction n with
  | zero => intro m s hn; omega
  | succ n ih =>
    intro m s hn hm
    cases m with
    | zero => omega
    | succ m =>
      simp only [wordChunksF]
      by_cases h : s.dropWhile (fun c => !isWordC c) = []
      · simp [h]
      · simp only [h, if_false]
        have hlt := wordChunks_drop_lt s h
        rw [ih m ((s.dropWhile (fun c => !isWordC c)).dropWhile isWordC) (by omega) (by omega)]

theorem wordChunks_eq (s : List Char) :
    wordChunks s = if s.dropWhile (fun c => !isWordC c) = [] then []
      else (s.dropWhile (fun c => !isWordC c)).takeWhile isWordC ::
        wordChunks ((s.dropWhile (fun c => !isWordC c)).dropWhile isWordC) := by
  show wordChunksF (s.length + 1) s = _
  rw [wordChunksF]
  by_cases h : s.dropWhile (fun c => !isWordC c) = []
  · simp [h]
  · simp only [h, if_false, List.cons.injEq, true_and]
    exact wordChunksF_fuel _ _ _ (wordChunks_drop_lt s h) (Nat.lt_succ_self _)

theorem wordChunks_congr (s u : List Char)
    (h : s.dropWhile (fun c => !isWordC c) = u.dropWhile (fun c => !isWordC c)) :
    wordChunks s = wordChunks u := by
  rw [wordChunks_eq s, wordChunks_eq u, h]

theorem wordChunks_cons_sep (c : Char) (s : List Char) (hc : isWordC c = false) :
    wordChunks (c :: s) = wordChunks s := by
  apply wordChunks_congr
  rw [List.dropWhile_cons, if_pos (by simp [hc])]

/-- The head-is-a-separator condition: empty, or starting with a
non-word character. -/
def sepHead (s : List Char) : Prop :=
  s = [] ∨ ∃ c t, s = c :: t ∧ isWordC c = false

theorem wordChunks_word_append (w s : List Char) (hw : w ≠ [])
    (hword : ∀ c ∈ w, isWordC c = true) (hs : sepHead s) :
    wordChunks (w ++ s) = w :: wordChunks s := by
  have hd : (w ++ s).dropWhile (fun c => !isWordC c) = w ++ s := by
    apply dropWhile_eq_self_of_head
    cases w with
    | nil => exact absurd rfl hw
    | cons a t =>
      refine Or.inr ⟨a, t ++ s, by simp, ?_⟩
      simp [hword a (List.mem_cons_self ..)]
  have htk : (w ++ s).takeWhile isWordC = w := by
    rw [takeWhile_append_all _ _ _ hword]
    rcases hs with h | ⟨c, t, hst, hc⟩
    · rw [h]
      simp
    · rw [hst, List.takeWhile_cons, if_neg (by simp [hc])]
      simp
  have hdr : (w ++ s).dropWhile isWordC = s := by
    rw [dropWhile_append_all _ _ _ hword]
    apply dropWhile_eq_self_of_head
    rcases hs with h | ⟨c, t, hst, hc⟩
    · exact Or.inl h
    · exact Or.inr ⟨c, t, hst, hc⟩
  rw [wordChunks_eq, hd, if_neg (by simp [hw]), htk, hdr]

theorem wordChunks_sep_prefix (a : List Char) (y : List Char)
    (ha : ∀ c ∈ a, isWordC c = false) :
    wordChunks (a ++ y) = wordChunks y := by
  induction a with
  | nil => rfl
  | cons c t ih =>
    rw [List.cons_append, wordChunks_cons_sep c _ (ha c (List.mem_cons_self ..))]
    exact ih (fun d hd => ha d (List.mem_cons_of_mem _ hd))

theorem wordChunks_append (x y : List Char) (hy : sepHead y) :
    wordChunks (x ++ y) = wordChunks x ++ wordChunks y := by
  have H : ∀ n : Nat, ∀ x : List Char, x.length < n →
      wordChunks (x ++ y) = wordChunks x ++ wordChunks y := by
    intro n
    induction n with
    | zero => intro x h; omega
    | succ n ih =>
      intro x hlen
      cases hx : x with
      | nil =>
        subst hx
        simp [show wordChunks ([] : List Char) = [] from rfl]
      | cons a t =>
        subst hx
        set x : List Char := a :: t with hx
        by_cases ha : isWordC a
        · -- a word run starts here
          have hw : ∀ c ∈ x.takeWhile isWordC, isWordC c = true := by
            intro c hc
            exact List.mem_takeWhile_imp hc
          have hwne : x.takeWhile isWordC ≠ [] := by
            rw [hx, List.takeWhile_cons, if_pos ha]
            simp
          have hsep : sepHead (x.dropWhile isWordC) := by
            cases hd : x.dropWhile isWordC with
            | nil => exact Or.inl rfl
            | cons b u =>
              refine Or.inr ⟨b, u, rfl, ?_⟩
              have := dropWhile_head_false isWordC x (by simp [hd])
              simpa [hd] using this
          have hsplit : x = x.takeWhile isWordC ++ x.dropWhile isWordC :=
            (List.takeWhile_append_dropWhile ..).symm
          have hsepy : sepHead (x.dropWhile isWordC ++ y) := by
            rcases hsep with h | ⟨b, u, hbu, hb⟩
            · rw [h]
              simpa using hy
            · exact Or.inr ⟨b, u ++ y, by rw [hbu]; simp, hb⟩
          have hlt : (x.dropWhile isWordC).length < x.length := by
            rw [hx]
            simp only [List.dropWhile_cons, ha, if_true]
            exact Nat.lt_succ_of_le (by rw [← hx] at *; exact dropWhile_length_le ..)
          calc wordChunks (x ++ y)
              = wordChunks (x.takeWhile isWordC ++ (x.dropWhile isWordC ++ y)) := by
                rw [← List.append_assoc, ← hsplit]
            _ = x.takeWhile isWordC :: wordChunks (x.dropWhile isWordC ++ y) :=
                wordChunks_word_append _ _ hwne hw hsepy
            _ = x.takeWhile isWordC :: (wordChunks (x.dropWhile isWordC) ++ wordChunks y) := by
                rw [ih _ (by omega)]
            _ = (x.takeWhile isWordC :: wordChunks (x.dropWhile isWordC)) ++ wordChunks y := rfl
            _ = wordChunks x ++ wordChunks y := by
                rw [← wordChunks_word_append _ _ hwne hw hsep, ← hsplit]
        · -- a separator character
          have hlen2 : t.length < n := by
            rw [hx] at hlen
            simp only [List.length_cons] at hlen
            omega
          rw [hx, List.cons_append,
            wordChunks_cons_sep a _ (by simpa using ha),
            wordChunks_cons_sep a t (by simpa using ha)]
          exact ih t hlen2
  exact H (x.length + 1) x (Nat.lt_succ_self _)

theorem isPyWS_not_word (c : Char) (h : isPyWS c = true) : isWordC c = false := by
  simp only [isPyWS, Bool.or_eq_true, decide_eq_true_eq] at h
  rcases h with ((((h | h) | h) | h) | h) | h <;> subst h <;> decide

theorem wordChunks_tokens (s : List Char) :
    wordChunks s = (pySplit s).foldr (fun t acc => wordChunks t ++ acc) [] := by
  have H : ∀ n : Nat, ∀ s : List Char, s.length < n →
      wordChunks s = (pySplit s).foldr (fun t acc => wordChunks t ++ acc) [] := by
    intro n
    induction n with
    | zero => intro s h; omega
    | succ n ih =>
      intro s hlen
      rw [pySplit_eq]
      by_cases hdw : s.dropWhile isPyWS = []
      · rw [if_pos hdw]
        have hall : ∀ c ∈ s, isWordC c = false := by
          intro c hc
          exact isPyWS_not_word c (List.dropWhile_eq_nil_iff.mp hdw c hc)
        have := wordChunks_sep_prefix s [] hall
        rw [List.append_nil] at this
        rw [this]
        rfl
      · rw [if_neg hdw]
        have hsplit1 : s = s.takeWhile isPyWS ++ s.dropWhile isPyWS :=
          (List.takeWhile_append_dropWhile ..).symm
        have hws : ∀ c ∈ s.takeWhile isPyWS, isWordC c = false := by
          intro c hc
          exact isPyWS_not_word c (List.mem_takeWhile_imp hc)
        have h1 : wordChunks s = wordChunks (s.dropWhile isPyWS) := by
          conv_lhs => rw [hsplit1]
          exact wordChunks_sep_prefix _ _ hws
        have hsplit2 : s.dropWhile isPyWS =
            (s.dropWhile isPyWS).takeWhile (fun c => !isPyWS c) ++
            (s.dropWhile isPyWS).dropWhile (fun c => !isPyWS c) :=
          (List.takeWhile_append_dropWhile ..).symm
        have hsep : sepHead ((s.dropWhile isPyWS).dropWhile (fun c => !isPyWS c)) := by
          cases hd : (s.dropWhile isPyWS).dropWhile (fun c => !isPyWS c) with
          | nil => exact Or.inl rfl
          | cons b u =>
            refine Or.inr ⟨b, u, rfl, ?_⟩
            have := dropWhile_head_false (fun c => !isPyWS c) (s.dropWhile isPyWS) (by simp [hd])
            have hb : isPyWS b = true := by simpa [hd] using this
            exact isPyWS_not_word b hb
        have h2 : wordChunks (s.dropWhile isPyWS) =
            wordChunks ((s.dropWhile isPyWS).takeWhile (fun c => !isPyWS c)) ++
            wordChunks ((s.dropWhile isPyWS).dropWhile (fun c => !isPyWS c)) := by
          conv_lhs => rw [hsplit2]
          exact wordChunks_append _ _ hsep
        have hlt := pySplit_drop_lt s hdw
        rw [h1, h2, ih ((s.dropWhile isPyWS).dropWhile (fun c => !isPyWS c)) (by omega)]
        rfl
  exact H (s.length + 1) s (Nat.lt_succ_self _)

theorem wordChunks_joinSp (L : List (List Char)) (hL : GoodToks L) :
    wordChunks (joinSp L) = L.foldr (fun t acc => wordChunks t ++ acc) [] := by
  induction L with
  | nil => rfl
  | cons t ts ih =>
    cases ts with
    | nil =>
      show wordChunks t = wordChunks t ++ []
      simp
    | cons u us =>
      have hL2 : GoodToks (u :: us) := fun q hq => hL q (List.mem_cons_of_mem _ hq)
      have hshape : joinSp (t :: u :: us) = t ++ ' ' :: joinSp (u :: us) := rfl
      rw [hshape, wordChunks_append t (' ' :: joinSp (u :: us)) (Or.inr ⟨' ', _, rfl, by decide⟩),
        wordChunks_cons_sep ' ' _ (by decide), ih hL2]
      rfl

theorem wordChunks_collapseWS (s : List Char) :
    wordChunks (collapseWS s) = wordChunks s := by
  show wordChunks (joinSp (pySplit s)) = wordChunks s
  rw [wordChunks_joinSp (pySplit s) (pySplit_good s), ← wordChunks_tokens]


/-! #### Scanner structure

How one `re.sub(r'\bP\b', R, ·)` pass interacts with the maximal word
runs: it replaces exactly the runs equal to `P` and leaves everything
else in place. -/

theorem isPrefList_append_self : ∀ p s : List Char, isPrefList p (p ++ s) = true
  | [], _ => rfl
  | a :: q, s => by
    simp only [List.cons_append, isPrefList, Bool.and_eq_true, decide_eq_true_eq]
    exact ⟨trivial, isPrefList_append_self q s⟩

theorem isPrefList_exists : ∀ p s : List Char, isPrefList p s = true → ∃ z, s = p ++ z
  | [], s, _ => ⟨s, rfl⟩
  | a :: q, [], h => by simp [isPrefList] at h
  | a :: q, b :: s, h => by
    simp only [isPrefList, Bool.and_eq_true, decide_eq_true_eq] at h
    obtain ⟨z, hz⟩ := isPrefList_exists q s h.2
    exact ⟨z, by rw [List.cons_append, ← hz, h.1]⟩

theorem wwMatch_nil (p : List Char) (hp : p ≠ []) : wwMatch p [] = false := by
  unfold wwMatch
  cases p with
  | nil => exact absurd rfl hp
  | cons a q => rfl

theorem subWWr_nil (p r : List Char) (hp : p ≠ []) (bd : Bool) :
    subWWr p r bd [] = [] := by
  rw [subWWr_eq p r hp, wwMatch_nil p hp, Bool.and_false, if_neg (by simp)]

theorem scan_sep (p r : List Char) (hp : p ≠ []) (hpw : ∀ c ∈ p, isWordC c = true)
    (bd : Bool) (c : Char) (s : List Char) (hc : isWordC c = false) :
    subWWr p r bd (c :: s) = c :: subWWr p r true s := by
  have hm : wwMatch p (c :: s) = false := by
    unfold wwMatch
    cases p with
    | nil => exact absurd rfl hp
    | cons a q =>
      have hac : (a = c) = False := by
        refine eq_false fun h => ?_
        have := hpw a (List.mem_cons_self ..)
        rw [h, hc] at this
        simp at this
      simp [isPrefList, hac]
  rw [subWWr_eq p r hp, hm, Bool.and_false, if_neg (by simp)]
  show c :: subWWr p r (!isWordC c) s = c :: subWWr p r true s
  rw [hc]
  rfl

theorem scan_false_run (p r : List Char) (hp : p ≠ []) :
    ∀ w s : List Char, (∀ c ∈ w, isWordC c = true) →
    subWWr p r false (w ++ s) = w ++ subWWr p r false s := by
  intro w
  induction w with
  | nil => intro s _; rfl
  | cons a w2 ih =>
    intro s hw
    rw [List.cons_append, subWWr_eq p r hp, Bool.false_and, if_neg (by simp)]
    show a :: subWWr p r (!isWordC a) (w2 ++ s) = (a :: w2) ++ subWWr p r false s
    rw [hw a (List.mem_cons_self ..)]
    show a :: subWWr p r false (w2 ++ s) = _
    rw [ih s (fun c hc => hw c (List.mem_cons_of_mem _ hc))]
    rfl

theorem scan_bd_sep (p r : List Char) (hp : p ≠ []) (hpw : ∀ c ∈ p, isWordC c = true)
    (s : List Char) (hs : sepHead s) :
    subWWr p r false s = subWWr p r true s := by
  rcases hs with h | ⟨c, t, hst, hc⟩
  · subst h
    rw [subWWr_nil p r hp, subWWr_nil p r hp]
  · subst hst
    rw [scan_sep p r hp hpw false c t hc, scan_sep p r hp hpw true c t hc]

theorem scan_match (p r : List Char) (hp : p ≠ []) (hpw : ∀ c ∈ p, isWordC c = true)
    (s : List Char) (hs : sepHead s) :
    subWWr p r true (p ++ s) = r ++ subWWr p r true s := by
  have hm : wwMatch p (p ++ s) = true := by
    unfold wwMatch
    rw [isPrefList_append_self, List.drop_left]
    rcases hs with h | ⟨c, t, hst, hc⟩
    · subst h
      rfl
    · subst hst
      simp [bdAfter, hc]
  rw [subWWr_eq p r hp, hm, Bool.true_and, if_pos rfl, List.drop_left,
    scan_bd_sep p r hp hpw s hs]

theorem scan_nomatch (p r : List Char) (hp : p ≠ []) (hpw : ∀ c ∈ p, isWordC c = true)
    (w s : List Char) (hwne : w ≠ []) (hw : ∀ c ∈ w, isWordC c = true)
    (hne : w ≠ p) (hs : sepHead s) :
    subWWr p r true (w ++ s) = w ++ subWWr p r true s := by
  have hm : wwMatch p (w ++ s) = false := by
    unfold wwMatch
    cases hb : isPrefList p (w ++ s) with
    | false => rw [Bool.false_and]
    | true =>
      rw [Bool.true_and]
      obtain ⟨z, hz⟩ := isPrefList_exists p (w ++ s) hb
      rcases Nat.lt_trichotomy p.length w.length with hlt | heq | hgt
      · rw [List.drop_append_of_le_length (le_of_lt hlt)]
        cases hd : w.drop p.length with
        | nil =>
          exfalso
          have := congrArg List.length hd
          simp only [List.length_drop, List.length_nil] at this
          omega
        | cons x xs =>
          have hx : x ∈ w := by
            have hmem : x ∈ w.drop p.length := by
              rw [hd]
              exact List.mem_cons_self ..
            exact List.drop_subset _ _ hmem
          show bdAfter (x :: xs ++ s) = false
          simp [bdAfter, hw x hx]
      · exfalso
        exact hne ((List.append_inj hz.symm (by omega)).1.symm)
      · exfalso
        have htake : (w ++ s).take p.length = p := by
          rw [hz]
          exact List.take_left p z
        rw [List.take_append_eq_append_take, List.take_of_length_le (by omega)] at htake
        rcases hs with hnil | ⟨c, t, hst, hc⟩
        · rw [hnil] at htake
          simp only [List.take_nil, List.append_nil] at htake
          have := congrArg List.length htake
          omega
        · subst hst
          cases hk : p.length - w.length with
          | zero => omega
          | succ m =>
            rw [hk, List.take_succ_cons] at htake
            have hcp : c ∈ p := by
              rw [← htake]
              exact List.mem_append.mpr (Or.inr (List.mem_cons_self ..))
            have hcw := hpw c hcp
            rw [hc] at hcw
            simp at hcw
  rw [subWWr_eq p r hp, hm, Bool.and_false, if_neg (by simp)]
  cases w with
  | nil => exact absurd rfl hwne
  | cons a w2 =>
    show a :: subWWr p r (!isWordC a) (w2 ++ s) = (a :: w2) ++ subWWr p r true s
    rw [hw a (List.mem_cons_self ..)]
    show a :: subWWr p r false (w2 ++ s) = _
    rw [scan_false_run p r hp w2 s (fun c hc => hw c (List.mem_cons_of_mem _ hc)),
      scan_bd_sep p r hp hpw s hs]
    rfl

theorem scan_sepHead (p r : List Char) (hp : p ≠ []) (hpw : ∀ c ∈ p, isWordC c = true)
    (s : List Char) (hs : sepHead s) : sepHead (subWWr p r true s) := by
  rcases hs with h | ⟨c, t, hst, hc⟩
  · subst h
    rw [subWWr_nil p r hp]
    exact Or.inl rfl
  · subst hst
    rw [scan_sep p r hp hpw true c t hc]
    exact Or.inr ⟨c, _, rfl, hc⟩

/-- One substitution pass maps the word runs pointwise: runs equal to
the pattern become the replacement, all other runs and all separator
characters stay in place. -/
theorem subWWr_chunks_map (p r : List Char) (hp : p ≠ [])
    (hpw : ∀ c ∈ p, isWordC c = true) (hr : r ≠ [])
    (hrw : ∀ c ∈ r, isWordC c = true) (s : List Char) :
    wordChunks (subWWr p r true s) =
      (wordChunks s).map (fun w => if w = p then r else w) := by
  have H : ∀ n : Nat, ∀ s : List Char, s.length < n →
      wordChunks (subWWr p r true s) =
        (wordChunks s).map (fun w => if w = p then r else w) := by
    intro n
    induction n with
    | zero => intro s h; omega
    | succ n ih =>
      intro s hlen
      cases s with
      | nil =>
        rw [subWWr_nil p r hp]
        rfl
      | cons a t =>
        by_cases ha : isWordC a
        · have hwne : (a :: t).takeWhile isWordC ≠ [] := by
            rw [List.takeWhile_cons, if_pos ha]
            simp
          have hwall : ∀ c ∈ (a :: t).takeWhile isWordC, isWordC c = true :=
            fun c hc => List.mem_takeWhile_imp hc
          have hsep : sepHead ((a :: t).dropWhile isWordC) := by
            cases hd : (a :: t).dropWhile isWordC with
            | nil => exact Or.inl rfl
            | cons b u =>
              refine Or.inr ⟨b, u, rfl, ?_⟩
              have := dropWhile_head_false isWordC (a :: t) (by simp [hd])
              simpa [hd] using this
          have hsplit : a :: t =
              (a :: t).takeWhile isWordC ++ (a :: t).dropWhile isWordC :=
            (List.takeWhile_append_dropWhile ..).symm
          have hlt : ((a :: t).dropWhile isWordC).length < n := by
            rw [List.dropWhile_cons, if_pos ha]
            have := dropWhile_length_le isWordC t
            simp only [List.length_cons] at hlen
            omega
          have hsub : sepHead (subWWr p r true ((a :: t).dropWhile isWordC)) :=
            scan_sepHead p r hp hpw _ hsep
          by_cases hwp : (a :: t).takeWhile isWordC = p
          · calc wordChunks (subWWr p r true (a :: t))
                = wordChunks (subWWr p r true (p ++ (a :: t).dropWhile isWordC)) := by
                  conv_lhs => rw [hsplit, hwp]
              _ = wordChunks (r ++ subWWr p r true ((a :: t).dropWhile isWordC)) := by
                  rw [scan_match p r hp hpw _ hsep]
              _ = r :: wordChunks (subWWr p r true ((a :: t).dropWhile isWordC)) :=
                  wordChunks_word_append r _ hr hrw hsub
              _ = r :: (wordChunks ((a :: t).dropWhile isWordC)).map
                    (fun w => if w = p then r else w) := by
                  rw [ih _ hlt]
              _ = (wordChunks (a :: t)).map (fun w => if w = p then r else w) := by
                  conv_rhs => rw [hsplit, wordChunks_word_append _ _ hwne hwall hsep]
                  rw [List.map_cons, if_pos hwp]
          · calc wordChunks (subWWr p r true (a :: t))
                = wordChunks (subWWr p r true ((a :: t).takeWhile isWordC ++
                    (a :: t).dropWhile isWordC)) := by
                  conv_lhs => rw [hsplit]
              _ = wordChunks ((a :: t).takeWhile isWordC ++
                    subWWr p r true ((a :: t).dropWhile isWordC)) := by
                  rw [scan_nomatch p r hp hpw _ _ hwne hwall hwp hsep]
              _ = (a :: t).takeWhile isWordC ::
                    wordChunks (subWWr p r true ((a :: t).dropWhile isWordC)) :=
                  wordChunks_word_append _ _ hwne hwall hsub
              _ = (a :: t).takeWhile isWordC ::
                    (wordChunks ((a :: t).dropWhile isWordC)).map
                      (fun w => if w = p then r else w) := by
                  rw [ih _ hlt]
              _ = (wordChunks (a :: t)).map (fun w => if w = p then r else w) := by
                  conv_rhs => rw [hsplit, wordChunks_word_append _ _ hwne hwall hsep]
                  rw [List.map_cons, if_neg hwp]
        · have ha2 : isWordC a = false := by simpa using ha
          have hlt : t.length < n := by
            simp only [List.length_cons] at hlen
            omega
          rw [scan_sep p r hp hpw true a t ha2,
            wordChunks_cons_sep a _ ha2, wordChunks_cons_sep a t ha2, ih t hlt]
  exact H (s.length + 1) s (Nat.lt_succ_self _)

/-- If no word run of `s` equals the pattern, the substitution pass is
the identity on `s`. -/
theorem subWWr_no_occurrence (p r : List Char) (hp : p ≠ [])
    (hpw : ∀ c ∈ p, isWordC c = true) (s : List Char)
    (hocc : p ∉ wordChunks s) : subWWr p r true s = s := by
  have H : ∀ n : Nat, ∀ s : List Char, s.length < n → p ∉ wordChunks s →
      subWWr p r true s = s := by
    intro n
    induction n with
    | zero => intro s h _; omega
    | succ n ih =>
      intro s hlen hocc2
      cases s with
      | nil => exact subWWr_nil p r hp true
      | cons a t =>
        by_cases ha : isWordC a
        · have hwne : (a :: t).takeWhile isWordC ≠ [] := by
            rw [List.takeWhile_cons, if_pos ha]
            simp
          have hwall : ∀ c ∈ (a :: t).takeWhile isWordC, isWordC c = true :=
            fun c hc => List.mem_takeWhile_imp hc
          have hsep : sepHead ((a :: t).dropWhile isWordC) := by
            cases hd : (a :: t).dropWhile isWordC with
            | nil => exact Or.inl rfl
            | cons b u =>
              refine Or.inr ⟨b, u, rfl, ?_⟩
              have := dropWhile_head_false isWordC (a :: t) (by simp [hd])
              simpa [hd] using this
          have hsplit : a :: t =
              (a :: t).takeWhile isWordC ++ (a :: t).dropWhile isWordC :=
            (List.takeWhile_append_dropWhile ..).symm
          have hlt : ((a :: t).dropWhile isWordC).length < n := by
            rw [List.dropWhile_cons, if_pos ha]
            have := dropWhile_length_le isWordC t
            simp only [List.length_cons] at hlen
            omega
          have hchunks : wordChunks (a :: t) =
              (a :: t).takeWhile isWordC ::
                wordChunks ((a :: t).dropWhile isWordC) := by
            conv_lhs => rw [hsplit]
            exact wordChunks_word_append _ _ hwne hwall hsep
          have hwp : (a :: t).takeWhile isWordC ≠ p := by
            intro h
            exact hocc2 (by rw [hchunks, ← h]; exact List.mem_cons_self ..)
          have hocc3 : p ∉ wordChunks ((a :: t).dropWhile isWordC) := by
            intro h
            exact hocc2 (by rw [hchunks]; exact List.mem_cons_of_mem _ h)
          calc subWWr p r true (a :: t)
              = subWWr p r true ((a :: t).takeWhile isWordC ++
                  (a :: t).dropWhile isWordC) := by
                conv_lhs => rw [hsplit]
            _ = (a :: t).takeWhile isWordC ++
                  subWWr p r true ((a :: t).dropWhile isWordC) :=
                scan_nomatch p r hp hpw _ _ hwne hwall hwp hsep
            _ = (a :: t).takeWhile isWordC ++ (a :: t).dropWhile isWordC := by
                rw [ih _ hlt hocc3]
            _ = a :: t := hsplit.symm
        · have ha2 : isWordC a = false := by simpa using ha
          have hlt : t.length < n := by
            simp only [List.length_cons] at hlen
            omega
          have hocc3 : p ∉ wordChunks t := by
            rw [wordChunks_cons_sep a t ha2] at hocc2
            exact hocc2
          rw [scan_sep p r hp hpw true a t ha2, ih t hlt hocc3]
  exact H (s.length + 1) s (Nat.lt_succ_self _) hocc

/-! #### The abbreviation table as a function on word runs -/

/-- Every table pattern and every table replacement is a nonempty run of
word characters. -/
theorem abbrevTable_ok : ∀ pr ∈ abbrevTable, pr.1 ≠ [] ∧
    (∀ c ∈ pr.1, isWordC c = true) ∧ pr.2 ≠ [] ∧
    (∀ c ∈ pr.2, isWordC c = true) := by decide

/-- No replacement in the table equals any pattern in the table. -/
theorem abbrev_repl_not_pattern :
    ∀ pr ∈ abbrevTable, ∀ qr ∈ abbrevTable, pr.2 ≠ qr.1 := by decide

/-- The effect of the whole abbreviation pipeline on a single word run. -/
def abbrevWord (w : List Char) : List Char :=
  abbrevTable.foldl (fun w pr => if w = pr.1 then pr.2 else w) w

/-- A fold of consecutive whole-word substitutions acts on the word runs
pointwise by the corresponding fold on words. -/
theorem wordChunks_foldl_subWW :
    ∀ T : List (List Char × List Char),
    (∀ pr ∈ T, pr.1 ≠ [] ∧ (∀ c ∈ pr.1, isWordC c = true) ∧
      pr.2 ≠ [] ∧ (∀ c ∈ pr.2, isWordC c = true)) →
    ∀ s : List Char,
    wordChunks (T.foldl (fun acc pr => subWW pr.1 pr.2 acc) s) =
      (wordChunks s).map
        (fun w => T.foldl (fun w pr => if w = pr.1 then pr.2 else w) w) := by
  intro T
  induction T with
  | nil =>
    intro _ s
    show wordChunks s = (wordChunks s).map (fun w => w)
    simp
  | cons pr T ih =>
    intro hT s
    obtain ⟨h1, h2, h3, h4⟩ := hT pr (List.mem_cons_self ..)
    show wordChunks (T.foldl (fun acc pr => subWW pr.1 pr.2 acc)
        (subWW pr.1 pr.2 s)) = _
    rw [show subWW pr.1 pr.2 s = subWWr pr.1 pr.2 true s from by
        unfold subWW; rw [if_neg h1],
      ih (fun q hq => hT q (List.mem_cons_of_mem _ hq)) (subWWr pr.1 pr.2 true s),
      subWWr_chunks_map pr.1 pr.2 h1 h2 h3 h4 s, List.map_map]
    rfl

/-- `applyAbbrevs` acts on the word runs pointwise by `abbrevWord`. -/
theorem wordChunks_applyAbbrevs (s : List Char) :
    wordChunks (applyAbbrevs s) = (wordChunks s).map abbrevWord := by
  show wordChunks (abbrevTable.foldl (fun acc pr => subWW pr.1 pr.2 acc) s) = _
  rw [wordChunks_foldl_subWW abbrevTable abbrevTable_ok s]
  rfl

/-- A word equal to no table pattern passes the word-level fold
unchanged. -/
theorem abbrev_foldl_pure :
    ∀ T : List (List Char × List Char), (∀ pr ∈ T, pr ∈ abbrevTable) →
    ∀ v : List Char, (∀ qr ∈ abbrevTable, v ≠ qr.1) →
    T.foldl (fun w pr => if w = pr.1 then pr.2 else w) v = v := by
  intro T
  induction T with
  | nil => intro _ v _; rfl
  | cons pr T ih =>
    intro hT v hv
    show T.foldl (fun w pr => if w = pr.1 then pr.2 else w)
        (if v = pr.1 then pr.2 else v) = v
    rw [if_neg (hv pr (hT pr (List.mem_cons_self ..)))]
    exact ih (fun q hq => hT q (List.mem_cons_of_mem _ hq)) v hv

/-- The word-level fold either leaves a word alone (and then the word
matched no pattern of the suffix) or ends in some table replacement. -/
theorem abbrev_foldl_cases :
    ∀ T : List (List Char × List Char), (∀ pr ∈ T, pr ∈ abbrevTable) →
    ∀ w : List Char,
    (T.foldl (fun w pr => if w = pr.1 then pr.2 else w) w = w ∧
      ∀ pr ∈ T, w ≠ pr.1) ∨
    (∃ pr ∈ abbrevTable,
      T.foldl (fun w pr => if w = pr.1 then pr.2 else w) w = pr.2) := by
  intro T
  induction T with
  | nil => intro _ w; exact Or.inl ⟨rfl, by simp⟩
  | cons pr T ih =>
    intro hT w
    have hsub : ∀ q ∈ T, q ∈ abbrevTable :=
      fun q hq => hT q (List.mem_cons_of_mem _ hq)
    have hprm : pr ∈ abbrevTable := hT pr (List.mem_cons_self ..)
    by_cases hw : w = pr.1
    · refine Or.inr ⟨pr, hprm, ?_⟩
      show T.foldl (fun w pr => if w = pr.1 then pr.2 else w)
          (if w = pr.1 then pr.2 else w) = pr.2
      rw [if_pos hw]
      exact abbrev_foldl_pure T hsub pr.2
        (fun qr hqr => abbrev_repl_not_pattern pr hprm qr hqr)
    · rcases ih hsub w with ⟨he, hall⟩ | ⟨q, hq, he⟩
      · refine Or.inl ⟨?_, ?_⟩
        · show T.foldl (fun w pr => if w = pr.1 then pr.2 else w)
              (if w = pr.1 then pr.2 else w) = w
          rw [if_neg hw]
          exact he
        · intro q hq
          rcases List.mem_cons.mp hq with h | h
          · rw [h]; exact hw
          · exact hall q h
      · refine Or.inr ⟨q, hq, ?_⟩
        show T.foldl (fun w pr => if w = pr.1 then pr.2 else w)
            (if w = pr.1 then pr.2 else w) = q.2
        rw [if_neg hw]
        exact he

/-- The word-level fold never outputs a table pattern. -/
theorem abbrevWord_not_pattern (w : List Char) :
    ∀ qr ∈ abbrevTable, abbrevWord w ≠ qr.1 := by
  intro qr hqr hcontra
  unfold abbrevWord at hcontra
  rcases abbrev_foldl_cases abbrevTable (fun pr hpr => hpr) w with
    ⟨he, hall⟩ | ⟨pr, hpr, he⟩
  · rw [he] at hcontra
    exact hall qr hqr hcontra
  · rw [he] at hcontra
    exact abbrev_repl_not_pattern pr hpr qr hqr hcontra

/-- If no word run of `t` is a table pattern, the whole abbreviation
fold over any subtable fixes `t`. -/
theorem foldl_subWW_fix :
    ∀ T : List (List Char × List Char),
    (∀ pr ∈ T, pr.1 ≠ [] ∧ (∀ c ∈ pr.1, isWordC c = true)) →
    ∀ t : List Char, (∀ pr ∈ T, pr.1 ∉ wordChunks t) →
    T.foldl (fun acc pr => subWW pr.1 pr.2 acc) t = t := by
  intro T
  induction T with
  | nil => intro _ t _; rfl
  | cons pr T ih =>
    intro hT t hocc
    obtain ⟨h1, h2⟩ := hT pr (List.mem_cons_self ..)
    have hfix : subWW pr.1 pr.2 t = t := by
      rw [show subWW pr.1 pr.2 t = subWWr pr.1 pr.2 true t from by
          unfold subWW; rw [if_neg h1]]
      exact subWWr_no_occurrence pr.1 pr.2 h1 h2 t (hocc pr (List.mem_cons_self ..))
    show T.foldl (fun acc pr => subWW pr.1 pr.2 acc) (subWW pr.1 pr.2 t) = t
    rw [hfix]
    exact ih (fun q hq => hT q (List.mem_cons_of_mem _ hq)) t
      (fun q hq => hocc q (List.mem_cons_of_mem _ hq))

/-- `applyAbbrevs` fixes any string none of whose word runs is a table
pattern. -/
theorem applyAbbrevs_fix_of_no_pattern (t : List Char)
    (h : ∀ pr ∈ abbrevTable, pr.1 ∉ wordChunks t) :
    applyAbbrevs t = t := by
  show abbrevTable.foldl (fun acc pr => subWW pr.1 pr.2 acc) t = t
  exact foldl_subWW_fix abbrevTable
    (fun pr hpr => ⟨(abbrevTable_ok pr hpr).1, (abbrevTable_ok pr hpr).2.1⟩) t h

/-- Every word run of a once-normalized street is an `abbrevWord` image,
hence no table pattern; so `applyAbbrevs` fixes `normStreet s`. -/
theorem applyAbbrevs_normStreet (s : List Char) :
    applyAbbrevs (normStreet s) = normStreet s := by
  apply applyAbbrevs_fix_of_no_pattern
  intro pr hpr hmem
  have hch : wordChunks (normStreet s) =
      (wordChunks (unitSub (pyStrip (pyUpper s)))).map abbrevWord := by
    show wordChunks (collapseWS (applyAbbrevs (unitSub (pyStrip (pyUpper s))))) = _
    rw [wordChunks_collapseWS, wordChunks_applyAbbrevs]
  rw [hch] at hmem
  obtain ⟨w, hwmem, hw⟩ := List.mem_map.mp hmem
  exact abbrevWord_not_pattern w pr hpr hw

/-! #### Idempotence of the per-component transformations -/

theorem pyStrip_head_false (l : List Char) :
    ∀ hne : pyStrip l ≠ [], isPyWS ((pyStrip l).head hne) = false := by
  intro hne
  have hwne : (l.dropWhile isPyWS).reverse.dropWhile isPyWS ≠ [] := by
    intro h
    apply hne
    show ((l.dropWhile isPyWS).reverse.dropWhile isPyWS).reverse = []
    rw [h]
    rfl
  have hrne : (l.dropWhile isPyWS).reverse ≠ [] := by
    intro h
    apply hwne
    rw [h]
    rfl
  have hdne : l.dropWhile isPyWS ≠ [] := by
    intro h
    apply hrne
    rw [h]
    rfl
  have h1 : (pyStrip l).head hne =
      ((l.dropWhile isPyWS).reverse.dropWhile isPyWS).getLast hwne :=
    List.head_reverse ..
  have h2 := dropWhile_getLast isPyWS (l.dropWhile isPyWS).reverse hwne hrne
  have h3 : (l.dropWhile isPyWS).reverse.getLast hrne =
      (l.dropWhile isPyWS).head hdne := List.getLast_reverse ..
  rw [h1, h2, h3]
  exact dropWhile_head_false isPyWS l hdne

theorem pyStrip_getLast_false (l : List Char) :
    ∀ hne : pyStrip l ≠ [], isPyWS ((pyStrip l).getLast hne) = false := by
  intro hne
  have hwne : (l.dropWhile isPyWS).reverse.dropWhile isPyWS ≠ [] := by
    intro h
    apply hne
    show ((l.dropWhile isPyWS).reverse.dropWhile isPyWS).reverse = []
    rw [h]
    rfl
  have h1 : (pyStrip l).getLast hne =
      ((l.dropWhile isPyWS).reverse.dropWhile isPyWS).head hwne :=
    List.getLast_reverse ..
  rw [h1]
  exact dropWhile_head_false isPyWS (l.dropWhile isPyWS).reverse hwne

theorem pyStrip_idem (l : List Char) : pyStrip (pyStrip l) = pyStrip l :=
  pyStrip_fix (pyStrip l) (pyStrip_head_false l) (pyStrip_getLast_false l)

/-- The street pipeline fixes its own output whenever the unit-designator
stripper does (the one step that can act again, see `C8_counterexample`). -/
theorem normStreet_idem (s : List Char)
    (Hs : unitSub (normStreet s) = normStreet s) :
    normStreet (normStreet s) = normStreet s := by
  show collapseWS (applyAbbrevs (unitSub (pyStrip (pyUpper (normStreet s))))) =
    normStreet s
  rw [pyUpper_of_UpFixed _ (UpFixed_normStreet s),
    show pyStrip (normStreet s) = normStreet s from pyStrip_collapseWS _,
    Hs, applyAbbrevs_normStreet s]
  exact collapseWS_idem (applyAbbrevs (unitSub (pyStrip (pyUpper s))))

/-- The city pipeline is idempotent. -/
theorem normCity_idem (c : List Char) : normCity (normCity c) = normCity c := by
  show collapseWS (pyStrip (pyUpper (normCity c))) = normCity c
  rw [pyUpper_of_UpFixed _ (UpFixed_normCity c),
    show pyStrip (normCity c) = normCity c from pyStrip_collapseWS _]
  exact collapseWS_idem (pyStrip (pyUpper c))

/-- The state pipeline is idempotent. -/
theorem normState_idem (t : List Char) : normState (normState t) = normState t := by
  show pyStrip (pyUpper (normState t)) = normState t
  rw [pyUpper_of_UpFixed _ (UpFixed_normState t)]
  exact pyStrip_idem (pyUpper t)

/-- The zip pipeline fixes its own output whenever stripping does (the
five-character truncation can leave trailing whitespace, which a second
pass would strip). -/
theorem normZip_idem (z : List Char) (Hz : pyStrip (normZip z) = normZip z) :
    normZip (normZip z) = normZip z := by
  show (if (pyStrip (normZip z)).isEmpty then pyStrip (normZip z)
    else (pyStrip (normZip z)).take 5) = normZip z
  rw [Hz]
  by_cases he : (normZip z).isEmpty
  · rw [if_pos he]
  · rw [if_neg he]
    show (if (pyStrip z).isEmpty then pyStrip z else (pyStrip z).take 5).take 5 =
      (if (pyStrip z).isEmpty then pyStrip z else (pyStrip z).take 5)
    by_cases h2 : (pyStrip z).isEmpty
    · rw [if_pos h2]
      have hz : pyStrip z = [] := by
        cases hps : pyStrip z with
        | nil => rfl
        | cons a t => rw [hps] at h2; simp at h2
      rw [hz]
      rfl
    · rw [if_neg h2]
      simp [List.take_take]

theorem toList_asString (l : List Char) : (l.asString).toList = l := rfl

/-- C8 (corrected): re-normalizing the once-normalized components yields
the same cache key, PROVIDED the once-normalized street is a fixed point
of the unit-designator stripper and the once-normalized zip is a fixed
point of whitespace stripping.  Both provisos can fail
(`C8_counterexample`: a street whose stripped form still ends in a unit
designator is stripped again on the second pass), so normalization is
not idempotent unconditionally as the claim states; city and state need
no proviso. -/
theorem C8_idempotence_amended (street city state zip : String)
    (Hs : unitSub (normStreet street.toList) = normStreet street.toList)
    (Hz : pyStrip (normZip zip.toList) = normZip zip.toList) :
    normalize_address_key
      (normalize_components street city state zip).1
      (normalize_components street city state zip).2.1
      (normalize_components street city state zip).2.2.1
      (normalize_components street city state zip).2.2.2
      = normalize_address_key street city state zip := by
  simp only [normalize_components, normalize_address_key, normalizeKeyL,
    toList_asString]
  rw [normStreet_idem street.toList Hs, normCity_idem city.toList,
    normState_idem state.toList, normZip_idem zip.toList Hz]

theorem C8_idempotence_amended_witness :
    unitSub (normStreet "123 Main Street".toList) =
      normStreet "123 Main Street".toList ∧
    pyStrip (normZip " 98101 ".toList) = normZip " 98101 ".toList ∧
    normalize_address_key
      (normalize_components "123 Main Street" "Seattle" "wa" " 98101 ").1
      (normalize_components "123 Main Street" "Seattle" "wa" " 98101 ").2.1
      (normalize_components "123 Main Street" "Seattle" "wa" " 98101 ").2.2.1
      (normalize_components "123 Main Street" "Seattle" "wa" " 98101 ").2.2.2
      = normalize_address_key "123 Main Street" "Seattle" "wa" " 98101 " :=
  ⟨by decide, by decide,
    C8_idempotence_amended "123 Main Street" "Seattle" "wa" " 98101 "
      (by decide) (by decide)⟩


end Geo
